import Mathlib

/-!
Verification model of the persistent transaction mempool
(`src/core/mempool.rs`).  The relational store is embedded shallowly:
the `mempool` table is a list of rows, the `removed_txids` (tombstone)
table a list of txids, the `randomized_txids` (pager) table a list of
`(txid, hashed_txid)` pairs, and the counting Bloom filter is abstracted
to the multiset of txids currently inserted into it (represented as a
list; `insert_raw` appends, `remove_raw` erases one occurrence).
Txids, addresses and hashes are `Nat`; a chain tip
`(consensus_hash, block_header_hash)` is a `Nat × Nat` pair.

External collaborators (the chainstate ancestry/height queries, the
admission oracle, the SipHash tag function and the pager hash) are
parameters of the operations, mirroring the interfaces the code
consumes.
-/

namespace MempoolSpec

/-- A chain tip: `(consensus_hash, block_header_hash)`. -/
abbrev BlockId := Nat × Nat

/-- One row of the `mempool` table (see `MEMPOOL_INITIAL_SCHEMA` and
`MemPoolTxMetadata`). -/
structure TxRow where
  txid : Nat
  origin_address : Nat
  origin_nonce : Nat
  sponsor_address : Nat
  sponsor_nonce : Nat
  tx_fee : Nat
  length : Nat
  consensus_hash : Nat
  block_header_hash : Nat
  height : Nat
  accept_time : Nat
  deriving DecidableEq, Repr

/-- The mempool database state: main table, tombstone table, pager
table, the bloom filter contents (multiset of inserted txids, as a
list) and the node-local seed held by the bloom counter. -/
structure MemPoolState where
  mempool : List TxRow
  removed : List Nat
  randomized : List (Nat × Nat)
  bloom : List Nat
  seed : Nat
  deriving DecidableEq, Repr

/-- The empty, freshly instantiated mempool database. -/
def initState (seed : Nat) : MemPoolState :=
  { mempool := [], removed := [], randomized := [], bloom := [], seed := seed }

/-- `BLOOM_COUNTER_DEPTH`. -/
def BLOOM_COUNTER_DEPTH : Nat := 2

/-- `MAX_BLOOM_COUNTER_TXS`. -/
def MAX_BLOOM_COUNTER_TXS : Nat := 8192

/-- `MEMPOOL_MAX_TRANSACTION_AGE`. -/
def MEMPOOL_MAX_TRANSACTION_AGE : Nat := 256

/-- `DEFAULT_MAX_TX_TAGS`. -/
def DEFAULT_MAX_TX_TAGS : Nat := 2048

/-- Modelled from the spec: the sentinel `FIRST_BURNCHAIN_CONSENSUS_HASH`
(defined in `core`, outside the provided sources); any fixed consensus
hash value works, we pick 0. -/
def FIRST_BURNCHAIN_CONSENSUS_HASH : Nat := 0

/-- Drop reasons (`MemPoolDropReason`). -/
inductive MemPoolDropReason where
  | REPLACE_ACROSS_FORK
  | REPLACE_BY_FEE
  | STALE_COLLECT
  | TOO_EXPENSIVE
  deriving DecidableEq, Repr

/-- The rejection errors surfaced by the submission path
(`MemPoolRejection`); oracle rejections are carried as a numeric
reason code. -/
inductive MemPoolRejection where
  | ConflictingNonceInMempool
  | NoSuchChainTip (consensus_hash block_hash : Nat)
  | DeserializationFailure
  | OracleRejected (reason : Nat)
  | Other (reason : Nat)
  deriving DecidableEq, Repr

/-- Observable actions of a mutating operation, used to state temporal
claims: an admission-oracle invocation, a dropped-transactions event
callback, and the final transaction commit. -/
inductive MpAction where
  | adminCheck (txid : Nat)
  | dropped (txids : List Nat) (reason : MemPoolDropReason)
  | commit
  deriving DecidableEq, Repr

/-- A parsed transaction as the submission path reads it
(`StacksTransaction` accessors used by `tx_submit`); `len` is the
length of its consensus serialization. -/
structure StacksTx where
  txid : Nat
  tx_fee : Nat
  origin_address : Nat
  origin_nonce : Nat
  sponsor : Option (Nat × Nat)
  len : Nat
  deriving DecidableEq, Repr

/-- `MemPoolDB::get_tx_metadata_by_address`: first row of the table
matching the origin (resp. sponsor) address and nonce. -/
def getTxMetadataByAddress (rows : List TxRow) (is_origin : Bool)
    (addr nonce : Nat) : Option TxRow :=
  rows.find? (fun r =>
    if is_origin then r.origin_address == addr && r.origin_nonce == nonce
    else r.sponsor_address == addr && r.sponsor_nonce == nonce)

/-- `MemPoolDB::are_blocks_in_same_fork`: equal tips short-circuit to
`true`; otherwise the chainstate ancestor-height query is consulted in
both directions and any `some` answer means same fork.  `anc` is the
external `get_ancestor_block_height` (tip, block) query. -/
def areBlocksInSameFork (anc : BlockId → BlockId → Option Nat)
    (first second : BlockId) : Bool :=
  if second == first then true
  else ((anc second first).isSome || (anc first second).isSome)

/-- Insert a txid into the tombstone table
(`INSERT OR REPLACE INTO removed_txids`): set-like insert. -/
def tombInsert (removed : List Nat) (t : Nat) : List Nat :=
  if removed.contains t then removed else removed ++ [t]

/-- The txid list selected by the prune query of
`MemPoolDB::prune_bloom_counter`: rows at exactly `target_height` with
no tombstone. -/
def pruneTargets (s : MemPoolState) (target_height : Nat) : List Nat :=
  (s.mempool.filter (fun r =>
    r.height == target_height && !(s.removed.contains r.txid))).map (·.txid)

/-- `MemPoolDB::prune_bloom_counter`: every row at exactly
`target_height` that is not tombstoned is removed (one count) from the
bloom filter and inserted into the tombstone table. -/
def pruneBloomCounter (s : MemPoolState) (target_height : Nat) : MemPoolState :=
  (pruneTargets s target_height).foldl (fun st t =>
    { st with bloom := st.bloom.erase t, removed := tombInsert st.removed t }) s

/-- `MemPoolDB::get_max_height`: `None` on an empty table, else the
maximum `height`. -/
def getMaxHeight (rows : List TxRow) : Option Nat :=
  match rows with
  | [] => none
  | _ => some ((rows.map (·.height)).foldl Nat.max 0)

/-- `MemPoolDB::get_num_recent_txs`: the number of rows (tombstoned or
not) whose height lies in the window
`(max_height - BLOOM_COUNTER_DEPTH, max_height]`. -/
def getNumRecentTxs (rows : List TxRow) : Nat :=
  match getMaxHeight rows with
  | none => 0
  | some m =>
    (rows.filter (fun r =>
      m - BLOOM_COUNTER_DEPTH < r.height && r.height ≤ m)).length

/-- One fold step of the first-minimum scan behind `ORDER BY f ASC
LIMIT 1`. -/
def minByStep (f : TxRow → Nat) (acc : Option TxRow) (r : TxRow) :
    Option TxRow :=
  match acc with
  | none => some r
  | some b => if f r < f b then some r else some b

/-- `ORDER BY f ASC LIMIT 1`: the first row carrying the minimal value
of `f`, in table order. -/
def minByFirst (f : TxRow → Nat) (rows : List TxRow) : Option TxRow :=
  rows.foldl (minByStep f) none

/-- `ORDER BY tx_fee ASC LIMIT 1`: the first row carrying the minimal
fee, in table order. -/
def minFeeRowFirst (rows : List TxRow) : Option TxRow :=
  minByFirst (·.tx_fee) rows

/-- The saturation-eviction candidate query of
`MemPoolDB::update_bloom_counter`: lowest-fee non-tombstoned row with
`height > new_height - BLOOM_COUNTER_DEPTH` (saturating). -/
def evictCandidate (rows : List TxRow) (removed : List Nat)
    (height : Nat) : Option TxRow :=
  minFeeRowFirst (rows.filter (fun r =>
    height - BLOOM_COUNTER_DEPTH < r.height && !(removed.contains r.txid)))

/-- Window-advancement phase of `MemPoolDB::update_bloom_counter`: if
no row exists at the new height and the height exceeds the window
depth, prune the height now leaving the window. -/
def ubcPruned (s : MemPoolState) (height : Nat) : MemPoolState :=
  if !(s.mempool.any (fun r => r.height == height)) &&
      decide (BLOOM_COUNTER_DEPTH < height) then
    pruneBloomCounter s (height - BLOOM_COUNTER_DEPTH)
  else s

/-- Replaced-prior phase of `update_bloom_counter`: remove the displaced
prior txid (one count) from the bloom filter. -/
def ubcAfterPrior (s : MemPoolState) (height : Nat)
    (prior_txid : Option Nat) : MemPoolState :=
  match prior_txid with
  | some p => { ubcPruned s height with bloom := (ubcPruned s height).bloom.erase p }
  | none => ubcPruned s height

/-- Saturation phase of `update_bloom_counter`: when the recent-row
count reaches the capacity, evict the candidate (remove one bloom
count, tombstone it) and report it. -/
def ubcEvict (s2 : MemPoolState) (height : Nat) : MemPoolState × Option Nat :=
  if MAX_BLOOM_COUNTER_TXS ≤ getNumRecentTxs s2.mempool then
    match evictCandidate s2.mempool s2.removed height with
    | some e =>
      ({ s2 with bloom := s2.bloom.erase e.txid,
                 removed := tombInsert s2.removed e.txid }, some e.txid)
    | none => (s2, none)
  else (s2, none)

/-- `MemPoolDB::update_bloom_counter`.  Returns the updated state and
the evicted txid, when saturation forced an eviction. -/
def updateBloomCounter (s : MemPoolState) (height txid : Nat)
    (prior_txid : Option Nat) : MemPoolState × Option Nat :=
  let res := ubcEvict (ubcAfterPrior s height prior_txid) height
  ({ res.1 with bloom := res.1.bloom ++ [txid] }, res.2)

/-- Whether an existing row `r` conflicts with the new `row` on one of
the three unique keys of the `mempool` table. -/
def conflictsWith (row r : TxRow) : Bool :=
  r.txid == row.txid ||
  (r.origin_address == row.origin_address && r.origin_nonce == row.origin_nonce) ||
  (r.sponsor_address == row.sponsor_address && r.sponsor_nonce == row.sponsor_nonce)

/-- `INSERT OR REPLACE INTO mempool`: rows conflicting with the new row
on any unique key (`txid`, `(origin_address, origin_nonce)`,
`(sponsor_address, sponsor_nonce)`) are deleted — which cascades into
`removed_txids` and `randomized_txids` — and the new row is inserted. -/
def insertOrReplaceMempool (s : MemPoolState) (row : TxRow) : MemPoolState :=
  let deletedIds := (s.mempool.filter (conflictsWith row)).map (·.txid)
  { s with
    mempool := s.mempool.filter (fun r => !(conflictsWith row r)) ++ [row],
    removed := s.removed.filter (fun t => !(deletedIds.contains t)),
    randomized := s.randomized.filter (fun p => !(deletedIds.contains p.1)) }

/-- `MemPoolDB::update_mempool_pager`: upsert
`(txid, pagerHash seed txid)` into `randomized_txids`.  `pagerHash`
models the external `Sha512Trunc256Sum` of `seed ‖ txid`. -/
def updateMempoolPager (pagerHash : Nat → Nat → Nat) (s : MemPoolState)
    (txid : Nat) : MemPoolState :=
  let hashed := pagerHash s.seed txid
  { s with randomized :=
      s.randomized.filter (fun p => p.1 ≠ txid) ++ [(txid, hashed)] }

/-- The conflicting *prior* row of `try_add_tx`: looked up first by
`(origin_address, origin_nonce)`, then by
`(sponsor_address, sponsor_nonce)`. -/
def tryAddPrior (rows : List TxRow) (origin_address origin_nonce : Nat)
    (sponsor_address sponsor_nonce : Nat) : Option TxRow :=
  match getTxMetadataByAddress rows true origin_address origin_nonce with
  | some p => some p
  | none => getTxMetadataByAddress rows false sponsor_address sponsor_nonce

/-- The admission decision of `try_add_tx` given the prior row: `some
reason` to accept (carrying the drop reason a displaced prior would be
reported with), `none` to reject with `ConflictingNonceInMempool`. -/
def tryAddDecision (anc : BlockId → BlockId → Option Nat) (tip : BlockId)
    (tx_fee : Nat) (prior_tx : Option TxRow) : Option MemPoolDropReason :=
  match prior_tx with
  | some p =>
    if tx_fee > p.tx_fee then some .REPLACE_BY_FEE
    else if !(areBlocksInSameFork anc (p.consensus_hash, p.block_header_hash) tip) then
      some .REPLACE_ACROSS_FORK
    else none
  | none => some .REPLACE_BY_FEE

/-- The row `try_add_tx` writes into the `mempool` table. -/
def mkRow (tip : BlockId) (txid tx_fee height : Nat)
    (origin_address origin_nonce sponsor_address sponsor_nonce : Nat)
    (len now : Nat) : TxRow :=
  { txid := txid, origin_address := origin_address,
    origin_nonce := origin_nonce, sponsor_address := sponsor_address,
    sponsor_nonce := sponsor_nonce, tx_fee := tx_fee, length := len,
    consensus_hash := tip.1, block_header_hash := tip.2,
    height := height, accept_time := now }

/-- The state produced by an accepted `try_add_tx`: bloom update, row
upsert, pager upsert, in that order. -/
def tryAddState (pagerHash : Nat → Nat → Nat) (s : MemPoolState)
    (tip : BlockId) (txid tx_fee height : Nat)
    (origin_address origin_nonce sponsor_address sponsor_nonce : Nat)
    (len now : Nat) (prior_tx : Option TxRow) : MemPoolState :=
  let s1 := (updateBloomCounter s height txid (prior_tx.map (·.txid))).1
  let s2 := insertOrReplaceMempool s1 (mkRow tip txid tx_fee height
    origin_address origin_nonce sponsor_address sponsor_nonce len now)
  updateMempoolPager pagerHash s2 txid

/-- `MemPoolDB::try_add_tx`.  `anc` is the chainstate ancestry query,
`pagerHash` the pager hash, `hasObserver` whether an event observer was
supplied, `now` the wall-clock accept time.  Returns the committed-state
result together with the observable actions emitted while the write
transaction was still open. -/
def tryAddTx (anc : BlockId → BlockId → Option Nat)
    (pagerHash : Nat → Nat → Nat) (hasObserver : Bool)
    (s : MemPoolState) (tip : BlockId) (txid : Nat) (tx_fee : Nat)
    (height : Nat) (origin_address origin_nonce : Nat)
    (sponsor_address sponsor_nonce : Nat) (len now : Nat) :
    Except MemPoolRejection MemPoolState × List MpAction :=
  match tryAddDecision anc tip tx_fee
      (tryAddPrior s.mempool origin_address origin_nonce
        sponsor_address sponsor_nonce) with
  | none => (.error .ConflictingNonceInMempool, [])
  | some replace_reason =>
    (.ok (tryAddState pagerHash s tip txid tx_fee height
        origin_address origin_nonce sponsor_address sponsor_nonce len now
        (tryAddPrior s.mempool origin_address origin_nonce
          sponsor_address sponsor_nonce)),
     match tryAddPrior s.mempool origin_address origin_nonce
         sponsor_address sponsor_nonce, hasObserver with
     | some p, true => [MpAction.dropped [p.txid] replace_reason]
     | _, _ => [])

/-- Tip-height resolution of `tx_submit`: the chainstate height, the
sentinel height 0 at the first burnchain consensus hash, or
`NoSuchChainTip`. -/
def resolveTipHeight (getBlockHeight : BlockId → Option Nat) (tip : BlockId) :
    Except MemPoolRejection Nat :=
  match getBlockHeight tip with
  | some h => .ok h
  | none =>
    if tip.1 == FIRST_BURNCHAIN_CONSENSUS_HASH then .ok 0
    else .error (.NoSuchChainTip tip.1 tip.2)

/-- Sponsor address/nonce of a transaction, defaulting to the origin
pair for non-sponsored transactions. -/
def sponsorPairOf (tx : StacksTx) : Nat × Nat :=
  match tx.sponsor with
  | some sp => sp
  | none => (tx.origin_address, tx.origin_nonce)

/-- `MemPoolDB::tx_submit`: resolve the tip height via the chainstate
(`getBlockHeight`), fall back to 0 at the first-burnchain sentinel,
run the admission oracle when requested, then `try_add_tx`. -/
def txSubmit (getBlockHeight : BlockId → Option Nat)
    (willAdmit : BlockId → StacksTx → Nat → Option MemPoolRejection)
    (anc : BlockId → BlockId → Option Nat) (pagerHash : Nat → Nat → Nat)
    (s : MemPoolState) (tip : BlockId) (tx : StacksTx)
    (do_admission_checks : Bool) (hasObserver : Bool) (now : Nat) :
    Except MemPoolRejection MemPoolState × List MpAction :=
  match resolveTipHeight getBlockHeight tip with
  | .error e => (.error e, [])
  | .ok height =>
    if do_admission_checks then
      match willAdmit tip tx tx.len with
      | some rej => (.error rej, [MpAction.adminCheck tx.txid])
      | none =>
        ((tryAddTx anc pagerHash hasObserver s tip tx.txid tx.tx_fee
            height tx.origin_address tx.origin_nonce (sponsorPairOf tx).1
            (sponsorPairOf tx).2 tx.len now).1,
         MpAction.adminCheck tx.txid ::
           (tryAddTx anc pagerHash hasObserver s tip tx.txid tx.tx_fee
             height tx.origin_address tx.origin_nonce (sponsorPairOf tx).1
             (sponsorPairOf tx).2 tx.len now).2)
    else
      tryAddTx anc pagerHash hasObserver s tip tx.txid tx.tx_fee
        height tx.origin_address tx.origin_nonce (sponsorPairOf tx).1
        (sponsorPairOf tx).2 tx.len now

/-- `MemPoolDB::submit`: a one-shot submission with admission checks;
begins a write transaction, runs `tx_submit`, commits. -/
def submit (getBlockHeight : BlockId → Option Nat)
    (willAdmit : BlockId → StacksTx → Nat → Option MemPoolRejection)
    (anc : BlockId → BlockId → Option Nat) (pagerHash : Nat → Nat → Nat)
    (s : MemPoolState) (tip : BlockId) (tx : StacksTx)
    (hasObserver : Bool) (now : Nat) :
    Except MemPoolRejection MemPoolState × List MpAction :=
  match txSubmit getBlockHeight willAdmit anc pagerHash s tip tx true hasObserver now with
  | (.ok s', acts) => (.ok s', acts ++ [MpAction.commit])
  | (.error e, acts) => (.error e, acts)

/-- `MemPoolDB::submit_raw`: deserialize the bytes (`decode` models the
external `consensus_deserialize`), then `tx_submit` with
`do_admission_checks = false` and no event observer. -/
def submitRaw (getBlockHeight : BlockId → Option Nat)
    (willAdmit : BlockId → StacksTx → Nat → Option MemPoolRejection)
    (anc : BlockId → BlockId → Option Nat) (pagerHash : Nat → Nat → Nat)
    (decode : List Nat → Option StacksTx)
    (s : MemPoolState) (tip : BlockId) (tx_bytes : List Nat) (now : Nat) :
    Except MemPoolRejection MemPoolState × List MpAction :=
  match decode tx_bytes with
  | none => (.error .DeserializationFailure, [])
  | some tx =>
    match txSubmit getBlockHeight willAdmit anc pagerHash s tip tx false false now with
    | (.ok s', acts) => (.ok s', acts ++ [MpAction.commit])
    | (.error e, acts) => (.error e, acts)

/-- `MemPoolDB::garbage_collect`: emit the stale-collect event (when an
observer is supplied) for every row below `min_height`, then delete
those rows; the cascade clears their tombstone and pager entries; the
bloom filter is untouched. -/
def garbageCollect (hasObserver : Bool) (s : MemPoolState)
    (min_height : Nat) : MemPoolState × List MpAction :=
  let staleIds := (s.mempool.filter (fun r => r.height < min_height)).map (·.txid)
  let acts :=
    if hasObserver then [MpAction.dropped staleIds MemPoolDropReason.STALE_COLLECT]
    else []
  ({ s with
      mempool := s.mempool.filter (fun r => !(r.height < min_height)),
      removed := s.removed.filter (fun t => !(staleIds.contains t)),
      randomized := s.randomized.filter (fun p => !(staleIds.contains p.1)) },
   acts)

/-- `MemPoolDB::drop_txs`: delete each listed txid's row; the cascade
clears the tombstone and pager entries of the deleted rows; no bloom
filter operation is performed. -/
def dropTxs (s : MemPoolState) (txids : List Nat) : MemPoolState :=
  let deletedIds := (s.mempool.filter (fun r => txids.contains r.txid)).map (·.txid)
  { s with
    mempool := s.mempool.filter (fun r => !(txids.contains r.txid)),
    removed := s.removed.filter (fun t => !(deletedIds.contains t)),
    randomized := s.randomized.filter (fun p => !(deletedIds.contains p.1)) }

/-! ### Candidate walker (`MemPoolDB::iterate_candidates`) -/

/-- The `u64 as i64` cast used on `tip_height`. -/
def u64AsI64 (n : Nat) : Int :=
  if n < 2 ^ 63 then (n : Int) else (n : Int) - 2 ^ 64

/-- `i64::checked_sub`. -/
def i64CheckedSub (a b : Int) : Option Int :=
  let r := a - b
  if -(2 ^ 63) ≤ r ∧ r ≤ 2 ^ 63 - 1 then some r else none

/-- Insertion step of the fee-descending sort (`ORDER BY tx_fee DESC`,
stable in table order). -/
def insertFeeDesc (r : TxRow) : List TxRow → List TxRow
  | [] => [r]
  | b :: rest =>
    if b.tx_fee ≤ r.tx_fee then r :: b :: rest else b :: insertFeeDesc r rest

/-- Stable sort of rows by descending `tx_fee`. -/
def sortFeeDesc : List TxRow → List TxRow
  | [] => []
  | r :: rest => insertFeeDesc r (sortFeeDesc rest)

/-- `SELECT DISTINCT`: keep the first occurrence of each value;
`seen` accumulates the values already emitted. -/
def dedupFirstAux : List Nat → List Nat → List Nat
  | [], _ => []
  | a :: rest, seen =>
    if seen.contains a then dedupFirstAux rest seen
    else a :: dedupFirstAux rest (a :: seen)

/-- Rows eligible for the walker:
`height > ?1 AND height <= ?2 AND tx_fee >= ?3`. -/
def walkEligible (rows : List TxRow) (min_h max_h : Int) (min_fee : Nat) :
    List TxRow :=
  rows.filter (fun r =>
    decide (min_h < (r.height : Int)) && decide ((r.height : Int) ≤ max_h) &&
    min_fee ≤ r.tx_fee)

/-- The full distinct origin-address list of
`MemPoolDB::find_origin_addresses_by_descending_fees`, before paging. -/
def originAddrsByDescFees (rows : List TxRow) (min_h max_h : Int)
    (min_fee : Nat) : List Nat :=
  dedupFirstAux ((sortFeeDesc (walkEligible rows min_h max_h min_fee)).map
    (·.origin_address)) []

/-- `MemPoolDB::find_origin_addresses_by_descending_fees` with
`LIMIT count OFFSET offset`. -/
def findOriginAddressesByDescendingFees (rows : List TxRow)
    (min_h max_h : Int) (min_fee offset count : Nat) : List Nat :=
  ((originAddrsByDescFees rows min_h max_h min_fee).drop offset).take count

/-- `ORDER BY sponsor_nonce ASC LIMIT 1`: first row carrying the
minimal sponsor nonce, in table order. -/
def minSponsorNonceFirst (rows : List TxRow) : Option TxRow :=
  minByFirst (·.sponsor_nonce) rows

/-- The per-origin candidate query of `iterate_candidates`. -/
def walkRowQuery (rows : List TxRow) (a : Nat) (min_h max_h : Int)
    (nonce min_fee : Nat) : Option TxRow :=
  minSponsorNonceFirst (rows.filter (fun r =>
    r.origin_address == a && decide (min_h < (r.height : Int)) &&
    decide ((r.height : Int) ≤ max_h) && r.origin_nonce == nonce &&
    min_fee ≤ r.tx_fee))

/-- One recorded callback invocation of the walker: the origin address,
the account nonce the chainstate reported for it at query time, the
row handed to the callback, and the callback's continue/stop answer. -/
structure WalkInv where
  origin : Nat
  nonce : Nat
  row : TxRow
  cont : Bool
  deriving DecidableEq, Repr

/-- The inner per-page loop of `iterate_candidates`: walk the page's
origin addresses, checking the deadline oracle before each, querying
the account nonce, fetching at most one row, and invoking the callback;
a `false` answer ends the page.  `t` counts deadline checks, `cnt` is
`total_considered`. -/
def walkPage {σ : Type} (deadline : Nat → Bool) (acctNonce : σ → Nat → Nat)
    (todo : σ → TxRow → σ × Bool) (rows : List TxRow) (min_h max_h : Int)
    (min_fee : Nat) :
    List Nat → σ → Nat → List WalkInv → Nat → σ × Nat × List WalkInv × Nat
  | [], c, t, tr, cnt => (c, t, tr, cnt)
  | a :: rest, c, t, tr, cnt =>
    if deadline t then (c, t + 1, tr, cnt)
    else
      let nonce := acctNonce c a
      match walkRowQuery rows a min_h max_h nonce min_fee with
      | none => walkPage deadline acctNonce todo rows min_h max_h min_fee
          rest c (t + 1) tr cnt
      | some row =>
        let res := todo c row
        if res.2 then
          walkPage deadline acctNonce todo rows min_h max_h min_fee
            rest res.1 (t + 1) (tr ++ [⟨a, nonce, row, res.2⟩]) (cnt + 1)
        else (res.1, t + 1, tr ++ [⟨a, nonce, row, res.2⟩], cnt + 1)

/-- The outer page loop of `iterate_candidates`: check the deadline,
fetch the next page of distinct origin addresses
(`LIMIT 1000 OFFSET offset*1000`), process it, advance the offset.
`fuel` bounds the number of pages (chosen large enough that it never
runs out). -/
def walkOuter {σ : Type} (deadline : Nat → Bool) (acctNonce : σ → Nat → Nat)
    (todo : σ → TxRow → σ × Bool) (rows : List TxRow) (min_h max_h : Int)
    (min_fee : Nat) :
    Nat → Nat → σ → Nat → List WalkInv → Nat → σ × List WalkInv × Nat
  | 0, _, c, _, tr, cnt => (c, tr, cnt)
  | fuel + 1, offset, c, t, tr, cnt =>
    if deadline t then (c, tr, cnt)
    else
      let pageL := findOriginAddressesByDescendingFees rows min_h max_h
        min_fee (offset * 1000) 1000
      if pageL.isEmpty then (c, tr, cnt)
      else
        let res := walkPage deadline acctNonce todo rows min_h max_h min_fee
          pageL c (t + 1) tr cnt
        walkOuter deadline acctNonce todo rows min_h max_h min_fee
          fuel (offset + 1) res.1 res.2.1 res.2.2.1 res.2.2.2

/-- `MemPoolDB::iterate_candidates`.  `deadline t` tells whether the
wall-clock deadline was exceeded at the `t`-th check, `acctNonce` is
the chainstate account-nonce query against the caller-supplied tip,
`todo` the callback (returning the updated clarity connection and
whether to continue).  Returns the final connection, the recorded
invocations, and the returned count (`total_considered`). -/
def iterateCandidates {σ : Type} (deadline : Nat → Bool)
    (acctNonce : σ → Nat → Nat) (todo : σ → TxRow → σ × Bool)
    (s : MemPoolState) (tip_height : Nat) (min_fee : Nat) (c0 : σ) :
    σ × List WalkInv × Nat :=
  let min_h := (i64CheckedSub (u64AsI64 tip_height)
    ((MEMPOOL_MAX_TRANSACTION_AGE : Int) + 1)).getD (-1)
  let max_h := u64AsI64 tip_height
  walkOuter deadline acctNonce todo s.mempool min_h max_h min_fee
    ((originAddrsByDescFees s.mempool min_h max_h min_fee).length + 2)
    0 c0 0 [] 0

/-! ### Sync protocol engine -/

/-- The wire digest `MemPoolSyncData`.  Modelled from the spec: the
type lives in `net` (not among the provided sources); the
`BloomFilter` variant carries the exported filter, abstracted here to
its membership test (`contains_raw`), and the `TxTags` variant carries
the seed and the 8-byte tag list (tags as `Nat`). -/
inductive MemPoolSyncData where
  | txTags (seed : Nat) (tags : List Nat)
  | bloomFilter (contains : Nat → Bool)

/-- Membership test a digest reports for a txid: bloom `contains_raw`
for the filter variant, tag membership under the digest's seed for the
tags variant.  `tagFn` models the external
`TxTag::from_seed_and_txid` (SipHash-2-4 of seed ‖ txid). -/
def syncDataContains (tagFn : Nat → Nat → Nat) (d : MemPoolSyncData)
    (txid : Nat) : Bool :=
  match d with
  | .bloomFilter c => c txid
  | .txTags seed tags => tags.contains (tagFn seed txid)

/-- Pager lookup: the `hashed_txid` recorded for a txid, if any. -/
def lookupPager (s : MemPoolState) (txid : Nat) : Option Nat :=
  (s.randomized.find? (fun p => p.1 == txid)).map (·.2)

/-- Insertion step of the `hashed_txid` ascending sort (stable). -/
def insertHashedAsc (x : TxRow × Nat) : List (TxRow × Nat) → List (TxRow × Nat)
  | [] => [x]
  | b :: rest =>
    if x.2 < b.2 then x :: b :: rest else b :: insertHashedAsc x rest

/-- Stable sort by ascending `hashed_txid`. -/
def sortHashedAsc : List (TxRow × Nat) → List (TxRow × Nat)
  | [] => []
  | x :: rest => insertHashedAsc x (sortHashedAsc rest)

/-- The SQL row set of `find_next_missing_transactions` before
`LIMIT`: `mempool JOIN randomized_txids` rows with
`hashed_txid > cursor`, `height > requester_height - DEPTH`
(saturating) and no tombstone, ordered by `hashed_txid` ascending. -/
def recentJoinRows (s : MemPoolState) (height cursor : Nat) :
    List (TxRow × Nat) :=
  sortHashedAsc (s.mempool.filterMap (fun r =>
    match lookupPager s r.txid with
    | some h =>
      if cursor < h && height - BLOOM_COUNTER_DEPTH < r.height &&
          !(s.removed.contains r.txid) then some (r, h)
      else none
    | none => none))

/-- The result-accumulation loop of `find_next_missing_transactions`:
skip rows the digest reports as present, push the rest, and stop once
the accumulated batch length reaches `max_txs` (checked after the
push). -/
def scanLoop (tagFn : Nat → Nat → Nat) (d : MemPoolSyncData) (max_txs : Nat) :
    List TxRow → List Nat → List Nat
  | [], acc => acc
  | r :: rest, acc =>
    if syncDataContains tagFn d r.txid then scanLoop tagFn d max_txs rest acc
    else
      let acc' := acc ++ [r.txid]
      if max_txs ≤ acc'.length then acc'
      else scanLoop tagFn d max_txs rest acc'

/-- `MemPoolDB::find_next_missing_transactions`, returning the txids of
the transactions streamed back (each one deserialized from the row's
stored bytes in the code). -/
def findNextMissingTransactions (tagFn : Nat → Nat → Nat) (s : MemPoolState)
    (d : MemPoolSyncData) (height cursor max_txs max_run : Nat) : List Nat :=
  scanLoop tagFn d max_txs
    (((recentJoinRows s height cursor).take max_run).map (·.1)) []

/-- `MemPoolDB::get_bloom_txids`: non-tombstoned txids whose height is
in the window `(max_height - DEPTH, max_height]`. -/
def getBloomTxids (s : MemPoolState) : List Nat :=
  match getMaxHeight s.mempool with
  | none => []
  | some m =>
    (s.mempool.filter (fun r =>
      m - BLOOM_COUNTER_DEPTH < r.height && r.height ≤ m &&
      !(s.removed.contains r.txid))).map (·.txid)

/-- `MemPoolDB::get_txtags`: one tag per recent non-tombstoned txid. -/
def getTxtags (tagFn : Nat → Nat → Nat) (s : MemPoolState) (seed : Nat) :
    List Nat :=
  (getBloomTxids s).map (tagFn seed)

/-! ### Library lemmas about the table/bloom primitives -/

theorem contains_true_iff (l : List Nat) (a : Nat) :
    l.contains a = true ↔ a ∈ l := by simp

theorem mem_tombInsert (l : List Nat) (t x : Nat) :
    x ∈ tombInsert l t ↔ x ∈ l ∨ x = t := by
  unfold tombInsert
  by_cases h : l.contains t
  · rw [if_pos h]
    rw [contains_true_iff] at h
    constructor
    · exact Or.inl
    · rintro (hx | rfl)
      · exact hx
      · exact h
  · rw [if_neg h]
    simp

theorem tombInsert_sub (l : List Nat) (t x : Nat) (hx : x ∈ l) :
    x ∈ tombInsert l t := (mem_tombInsert l t x).mpr (Or.inl hx)

theorem mem_foldl_erase_or (ts : List Nat) (l : List Nat) (x : Nat)
    (hx : x ∈ l) : x ∈ ts.foldl List.erase l ∨ x ∈ ts := by
  induction ts generalizing l with
  | nil => exact Or.inl hx
  | cons t ts ih =>
    by_cases hxt : x = t
    · exact Or.inr (by simp [hxt])
    · rcases ih (l.erase t) ((List.mem_erase_of_ne hxt).mpr hx) with h | h
      · exact Or.inl h
      · exact Or.inr (List.mem_cons_of_mem _ h)

theorem count_foldl_erase (ts : List Nat) (l : List Nat) (x : Nat) :
    (ts.foldl List.erase l).count x = l.count x - ts.count x := by
  induction ts generalizing l with
  | nil => simp
  | cons t ts ih =>
    by_cases hxt : x = t
    · subst hxt
      simp only [List.foldl_cons, ih, List.count_erase_self, List.count_cons_self]
      omega
    · simp only [List.foldl_cons, ih, List.count_erase_of_ne hxt,
        List.count_cons_of_ne hxt]

theorem mem_foldl_erase_of_not_mem (ts : List Nat) (l : List Nat) (x : Nat)
    (hx : x ∈ l) (hts : x ∉ ts) : x ∈ ts.foldl List.erase l := by
  have h0 : 0 < l.count x := List.count_pos_iff.mpr hx
  have hc : ts.count x = 0 := List.count_eq_zero.mpr hts
  have := count_foldl_erase ts l x
  rw [hc, Nat.sub_zero] at this
  exact List.count_pos_iff.mp (this ▸ h0)

theorem mem_foldl_tombInsert (ts : List Nat) (l : List Nat) (x : Nat) :
    x ∈ ts.foldl tombInsert l ↔ x ∈ l ∨ x ∈ ts := by
  induction ts generalizing l with
  | nil => simp
  | cons t ts ih =>
    simp only [List.foldl_cons, ih, mem_tombInsert, List.mem_cons]
    tauto

/-- Specification of the first-minimum fold behind `ORDER BY f ASC
LIMIT 1`. -/
theorem minByFirst_go_spec (f : TxRow → Nat) :
    ∀ (rows : List TxRow) (acc : Option TxRow) (b : TxRow),
      rows.foldl (minByStep f) acc = some b →
      (b ∈ rows ∨ acc = some b) ∧ (∀ r ∈ rows, f b ≤ f r) ∧
        (∀ a, acc = some a → f b ≤ f a) := by
  intro rows
  induction rows with
  | nil =>
    intro acc b h
    simp only [List.foldl_nil] at h
    refine ⟨Or.inr h, by simp, ?_⟩
    intro a ha
    rw [h] at ha
    cases ha
    exact Nat.le_refl _
  | cons r rest ih =>
    intro acc b h
    simp only [List.foldl_cons] at h
    cases acc with
    | none =>
      rw [show minByStep f none r = some r from rfl] at h
      obtain ⟨h1, h2, h3⟩ := ih (some r) b h
      have hbr : f b ≤ f r := h3 r rfl
      refine ⟨?_, ?_, ?_⟩
      · rcases h1 with h1 | h1
        · exact Or.inl (List.mem_cons_of_mem _ h1)
        · cases h1
          exact Or.inl (List.mem_cons_self _ _)
      · intro r' hr'
        rcases List.mem_cons.mp hr' with rfl | hr'
        · exact hbr
        · exact h2 r' hr'
      · intro a ha
        cases ha
    | some c =>
      rw [show minByStep f (some c) r =
        (if f r < f c then some r else some c) from rfl] at h
      by_cases hlt : f r < f c
      · rw [if_pos hlt] at h
        obtain ⟨h1, h2, h3⟩ := ih (some r) b h
        have hbr : f b ≤ f r := h3 r rfl
        refine ⟨?_, ?_, ?_⟩
        · rcases h1 with h1 | h1
          · exact Or.inl (List.mem_cons_of_mem _ h1)
          · cases h1
            exact Or.inl (List.mem_cons_self _ _)
        · intro r' hr'
          rcases List.mem_cons.mp hr' with rfl | hr'
          · exact hbr
          · exact h2 r' hr'
        · intro a ha
          cases ha
          exact Nat.le_trans hbr (Nat.le_of_lt hlt)
      · rw [if_neg hlt] at h
        obtain ⟨h1, h2, h3⟩ := ih (some c) b h
        have hbc : f b ≤ f c := h3 c rfl
        refine ⟨?_, ?_, ?_⟩
        · rcases h1 with h1 | h1
          · exact Or.inl (List.mem_cons_of_mem _ h1)
          · exact Or.inr h1
        · intro r' hr'
          rcases List.mem_cons.mp hr' with rfl | hr'
          · exact Nat.le_trans hbc (Nat.le_of_not_lt hlt)
          · exact h2 r' hr'
        · intro a ha
          cases ha
          exact hbc

theorem minByFirst_mem (f : TxRow → Nat) (rows : List TxRow) (b : TxRow)
    (h : minByFirst f rows = some b) : b ∈ rows := by
  have := minByFirst_go_spec f rows none b h
  rcases this.1 with h1 | h1
  · exact h1
  · cases h1

theorem minByFirst_min (f : TxRow → Nat) (rows : List TxRow) (b : TxRow)
    (h : minByFirst f rows = some b) : ∀ r ∈ rows, f b ≤ f r :=
  (minByFirst_go_spec f rows none b h).2.1

/-- `dedupFirstAux` emits no duplicates and nothing already seen. -/
theorem dedupFirstAux_nodup :
    ∀ (l seen : List Nat),
      (dedupFirstAux l seen).Nodup ∧ ∀ x ∈ dedupFirstAux l seen, x ∉ seen := by
  intro l
  induction l with
  | nil => intro seen; simp [dedupFirstAux]
  | cons a rest ih =>
    intro seen
    unfold dedupFirstAux
    by_cases h : seen.contains a
    · rw [if_pos h]
      exact ih seen
    · rw [if_neg h]
      obtain ⟨hn, hs⟩ := ih (a :: seen)
      constructor
      · refine List.nodup_cons.mpr ⟨?_, hn⟩
        intro hmem
        exact (hs a hmem) (List.mem_cons_self _ _)
      · intro x hx hxs
        rcases List.mem_cons.mp hx with rfl | hx
        · rw [contains_true_iff] at h
          exact h hxs
        · exact hs x hx (List.mem_cons_of_mem _ hxs)

theorem insertFeeDesc_perm (r : TxRow) (l : List TxRow) :
    (insertFeeDesc r l).Perm (r :: l) := by
  induction l with
  | nil => simp [insertFeeDesc]
  | cons b rest ih =>
    unfold insertFeeDesc
    by_cases h : b.tx_fee ≤ r.tx_fee
    · rw [if_pos h]
    · rw [if_neg h]
      exact (ih.cons b).trans (List.Perm.swap r b rest)

theorem sortFeeDesc_perm (l : List TxRow) : (sortFeeDesc l).Perm l := by
  induction l with
  | nil => simp [sortFeeDesc]
  | cons r rest ih =>
    exact (insertFeeDesc_perm r (sortFeeDesc rest)).trans (ih.cons r)

theorem mem_insertHashedAsc (x b : TxRow × Nat) (l : List (TxRow × Nat)) :
    b ∈ insertHashedAsc x l ↔ b = x ∨ b ∈ l := by
  induction l with
  | nil => simp [insertHashedAsc]
  | cons c rest ih =>
    unfold insertHashedAsc
    by_cases h : x.2 < c.2
    · rw [if_pos h]; simp
    · rw [if_neg h]
      simp only [List.mem_cons, ih]
      tauto

theorem insertHashedAsc_sorted (x : TxRow × Nat) (l : List (TxRow × Nat))
    (h : l.Pairwise (fun a b => a.2 ≤ b.2)) :
    (insertHashedAsc x l).Pairwise (fun a b => a.2 ≤ b.2) := by
  induction l with
  | nil => simp [insertHashedAsc]
  | cons c rest ih =>
    obtain ⟨hc, hrest⟩ := List.pairwise_cons.mp h
    unfold insertHashedAsc
    by_cases hlt : x.2 < c.2
    · rw [if_pos hlt]
      refine List.pairwise_cons.mpr ⟨?_, h⟩
      intro b hb
      rcases List.mem_cons.mp hb with rfl | hb
      · exact Nat.le_of_lt hlt
      · exact Nat.le_trans (Nat.le_of_lt hlt) (hc b hb)
    · rw [if_neg hlt]
      refine List.pairwise_cons.mpr ⟨?_, ih hrest⟩
      intro b hb
      rcases (mem_insertHashedAsc x b rest).mp hb with rfl | hb
      · exact Nat.le_of_not_lt hlt
      · exact hc b hb

theorem sortHashedAsc_sorted (l : List (TxRow × Nat)) :
    (sortHashedAsc l).Pairwise (fun a b => a.2 ≤ b.2) := by
  induction l with
  | nil => simp [sortHashedAsc]
  | cons x rest ih => exact insertHashedAsc_sorted x (sortHashedAsc rest) ih

theorem insertHashedAsc_perm (x : TxRow × Nat) (l : List (TxRow × Nat)) :
    (insertHashedAsc x l).Perm (x :: l) := by
  induction l with
  | nil => simp [insertHashedAsc]
  | cons c rest ih =>
    unfold insertHashedAsc
    by_cases h : x.2 < c.2
    · rw [if_pos h]
    · rw [if_neg h]
      exact (ih.cons c).trans (List.Perm.swap x c rest)

theorem sortHashedAsc_perm (l : List (TxRow × Nat)) :
    (sortHashedAsc l).Perm l := by
  induction l with
  | nil => simp [sortHashedAsc]
  | cons x rest ih =>
    exact (insertHashedAsc_perm x (sortHashedAsc rest)).trans (ih.cons x)

/-! ### Lemmas about the bloom-counter operations -/

theorem prune_foldl_decomp (ts : List Nat) (st : MemPoolState) :
    ts.foldl (fun st t =>
      { st with bloom := st.bloom.erase t, removed := tombInsert st.removed t }) st
    = { st with bloom := ts.foldl List.erase st.bloom,
                removed := ts.foldl tombInsert st.removed } := by
  induction ts generalizing st with
  | nil => rfl
  | cons t ts ih =>
    simp only [List.foldl_cons]
    rw [ih]

theorem pruneBloomCounter_eq (s : MemPoolState) (th : Nat) :
    pruneBloomCounter s th =
      { s with bloom := (pruneTargets s th).foldl List.erase s.bloom,
               removed := (pruneTargets s th).foldl tombInsert s.removed } := by
  unfold pruneBloomCounter
  exact prune_foldl_decomp _ s

theorem mem_pruneTargets (s : MemPoolState) (th x : Nat) :
    x ∈ pruneTargets s th ↔
      ∃ r ∈ s.mempool, r.txid = x ∧ r.height = th ∧ x ∉ s.removed := by
  unfold pruneTargets
  simp only [List.mem_map, List.mem_filter, Bool.and_eq_true, beq_iff_eq,
    Bool.not_eq_true']
  constructor
  · rintro ⟨r, ⟨hr, hh, hc⟩, rfl⟩
    refine ⟨r, hr, rfl, hh, ?_⟩
    intro hmem
    rw [(contains_true_iff _ _).mpr hmem] at hc
    cases hc
  · rintro ⟨r, hr, rfl, hh, hnm⟩
    refine ⟨r, ⟨hr, hh, ?_⟩, rfl⟩
    cases hcon : s.removed.contains r.txid with
    | false => rfl
    | true => exact absurd ((contains_true_iff _ _).mp hcon) hnm

theorem ubcPruned_mempool (s : MemPoolState) (h : Nat) :
    (ubcPruned s h).mempool = s.mempool := by
  unfold ubcPruned
  split
  · rw [pruneBloomCounter_eq]
  · rfl

theorem ubcPruned_randomized (s : MemPoolState) (h : Nat) :
    (ubcPruned s h).randomized = s.randomized := by
  unfold ubcPruned
  split
  · rw [pruneBloomCounter_eq]
  · rfl

theorem ubcPruned_seed (s : MemPoolState) (h : Nat) :
    (ubcPruned s h).seed = s.seed := by
  unfold ubcPruned
  split
  · rw [pruneBloomCounter_eq]
  · rfl

theorem ubcPruned_removed_mono (s : MemPoolState) (h : Nat) (x : Nat)
    (hx : x ∈ s.removed) : x ∈ (ubcPruned s h).removed := by
  unfold ubcPruned
  split
  · rw [pruneBloomCounter_eq]
    exact (mem_foldl_tombInsert _ _ _).mpr (Or.inl hx)
  · exact hx

theorem ubcPruned_bloom_or_removed (s : MemPoolState) (h : Nat) (x : Nat)
    (hx : x ∈ s.bloom) :
    x ∈ (ubcPruned s h).bloom ∨ x ∈ (ubcPruned s h).removed := by
  unfold ubcPruned
  split
  · rw [pruneBloomCounter_eq]
    rcases mem_foldl_erase_or (pruneTargets s (h - BLOOM_COUNTER_DEPTH))
        s.bloom x hx with hb | ht
    · exact Or.inl hb
    · exact Or.inr ((mem_foldl_tombInsert _ _ _).mpr (Or.inr ht))
  · exact Or.inl hx

theorem ubcAfterPrior_mempool (s : MemPoolState) (h : Nat) (p : Option Nat) :
    (ubcAfterPrior s h p).mempool = s.mempool := by
  unfold ubcAfterPrior
  cases p <;> simp [ubcPruned_mempool]

theorem ubcAfterPrior_randomized (s : MemPoolState) (h : Nat) (p : Option Nat) :
    (ubcAfterPrior s h p).randomized = s.randomized := by
  unfold ubcAfterPrior
  cases p <;> simp [ubcPruned_randomized]

theorem ubcAfterPrior_seed (s : MemPoolState) (h : Nat) (p : Option Nat) :
    (ubcAfterPrior s h p).seed = s.seed := by
  unfold ubcAfterPrior
  cases p <;> simp [ubcPruned_seed]

theorem ubcAfterPrior_removed (s : MemPoolState) (h : Nat) (p : Option Nat) :
    (ubcAfterPrior s h p).removed = (ubcPruned s h).removed := by
  unfold ubcAfterPrior
  cases p <;> rfl

theorem ubcAfterPrior_bloom_or_removed (s : MemPoolState) (h : Nat)
    (p : Option Nat) (x : Nat) (hx : x ∈ s.bloom) (hxp : p ≠ some x) :
    x ∈ (ubcAfterPrior s h p).bloom ∨ x ∈ (ubcAfterPrior s h p).removed := by
  unfold ubcAfterPrior
  cases p with
  | none => exact ubcPruned_bloom_or_removed s h x hx
  | some q =>
    have hne : x ≠ q := by
      intro hxq
      exact hxp (by rw [hxq])
    rcases ubcPruned_bloom_or_removed s h x hx with hb | hr
    · exact Or.inl ((List.mem_erase_of_ne hne).mpr hb)
    · exact Or.inr hr

theorem ubcEvict_mempool (s2 : MemPoolState) (h : Nat) :
    (ubcEvict s2 h).1.mempool = s2.mempool := by
  unfold ubcEvict
  split
  · split <;> rfl
  · rfl

theorem ubcEvict_randomized (s2 : MemPoolState) (h : Nat) :
    (ubcEvict s2 h).1.randomized = s2.randomized := by
  unfold ubcEvict
  split
  · split <;> rfl
  · rfl

theorem ubcEvict_seed (s2 : MemPoolState) (h : Nat) :
    (ubcEvict s2 h).1.seed = s2.seed := by
  unfold ubcEvict
  split
  · split <;> rfl
  · rfl

theorem ubcEvict_removed_mono (s2 : MemPoolState) (h : Nat) (x : Nat)
    (hx : x ∈ s2.removed) : x ∈ (ubcEvict s2 h).1.removed := by
  unfold ubcEvict
  split
  · split
    · exact tombInsert_sub _ _ _ hx
    · exact hx
  · exact hx

theorem ubcEvict_bloom_or_removed (s2 : MemPoolState) (h : Nat) (x : Nat)
    (hx : x ∈ s2.bloom) :
    x ∈ (ubcEvict s2 h).1.bloom ∨ x ∈ (ubcEvict s2 h).1.removed := by
  unfold ubcEvict
  split
  · split
    · rename_i e heq
      by_cases hxe : x = e.txid
      · subst hxe
        exact Or.inr ((mem_tombInsert _ _ _).mpr (Or.inr rfl))
      · exact Or.inl ((List.mem_erase_of_ne hxe).mpr hx)
    · exact Or.inl hx
  · exact Or.inl hx

/-- Frame facts about `update_bloom_counter`: the main table, the pager
and the seed are untouched, the new txid ends up in the bloom filter,
tombstones only grow, and a bloom txid stays in the bloom filter or is
tombstoned, except for the displaced prior. -/
theorem updateBloomCounter_mempool (s : MemPoolState) (h t : Nat)
    (p : Option Nat) : (updateBloomCounter s h t p).1.mempool = s.mempool := by
  show (ubcEvict (ubcAfterPrior s h p) h).1.mempool = s.mempool
  rw [ubcEvict_mempool, ubcAfterPrior_mempool]

theorem updateBloomCounter_randomized (s : MemPoolState) (h t : Nat)
    (p : Option Nat) :
    (updateBloomCounter s h t p).1.randomized = s.randomized := by
  show (ubcEvict (ubcAfterPrior s h p) h).1.randomized = s.randomized
  rw [ubcEvict_randomized, ubcAfterPrior_randomized]

theorem updateBloomCounter_seed (s : MemPoolState) (h t : Nat)
    (p : Option Nat) : (updateBloomCounter s h t p).1.seed = s.seed := by
  show (ubcEvict (ubcAfterPrior s h p) h).1.seed = s.seed
  rw [ubcEvict_seed, ubcAfterPrior_seed]

theorem updateBloomCounter_new_in_bloom (s : MemPoolState) (h t : Nat)
    (p : Option Nat) : t ∈ (updateBloomCounter s h t p).1.bloom := by
  show t ∈ (ubcEvict (ubcAfterPrior s h p) h).1.bloom ++ [t]
  simp

theorem updateBloomCounter_removed (s : MemPoolState) (h t : Nat)
    (p : Option Nat) :
    (updateBloomCounter s h t p).1.removed =
      (ubcEvict (ubcAfterPrior s h p) h).1.removed := rfl

theorem updateBloomCounter_removed_mono (s : MemPoolState) (h t : Nat)
    (p : Option Nat) (x : Nat) (hx : x ∈ s.removed) :
    x ∈ (updateBloomCounter s h t p).1.removed := by
  rw [updateBloomCounter_removed]
  refine ubcEvict_removed_mono _ _ _ ?_
  rw [ubcAfterPrior_removed]
  exact ubcPruned_removed_mono s h x hx

theorem updateBloomCounter_bloom_or_removed (s : MemPoolState) (h t : Nat)
    (p : Option Nat) (x : Nat) (hx : x ∈ s.bloom) (hxp : p ≠ some x) :
    x ∈ (updateBloomCounter s h t p).1.bloom ∨
      x ∈ (updateBloomCounter s h t p).1.removed := by
  rcases ubcAfterPrior_bloom_or_removed s h p x hx hxp with hb | hr
  · rcases ubcEvict_bloom_or_removed (ubcAfterPrior s h p) h x hb with hb2 | hr2
    · left
      show x ∈ (ubcEvict (ubcAfterPrior s h p) h).1.bloom ++ [t]
      simp only [List.mem_append]
      exact Or.inl hb2
    · right
      rw [updateBloomCounter_removed]
      exact hr2
  · right
    rw [updateBloomCounter_removed]
    exact ubcEvict_removed_mono _ _ _ hr

/-! ### Lemmas about the row upsert, the pager, GC and drop -/

theorem mem_insertOrReplace_mempool (s : MemPoolState) (row r' : TxRow) :
    r' ∈ (insertOrReplaceMempool s row).mempool ↔
      (r' ∈ s.mempool ∧ conflictsWith row r' = false) ∨ r' = row := by
  unfold insertOrReplaceMempool
  simp only [List.mem_append, List.mem_filter, List.mem_singleton,
    Bool.not_eq_true']

theorem insertOrReplace_bloom (s : MemPoolState) (row : TxRow) :
    (insertOrReplaceMempool s row).bloom = s.bloom := rfl

theorem insertOrReplace_seed (s : MemPoolState) (row : TxRow) :
    (insertOrReplaceMempool s row).seed = s.seed := rfl

theorem insertOrReplace_removed_sub (s : MemPoolState) (row : TxRow) (x : Nat)
    (hx : x ∈ (insertOrReplaceMempool s row).removed) : x ∈ s.removed := by
  unfold insertOrReplaceMempool at hx
  exact List.mem_of_mem_filter hx

theorem insertOrReplace_removed_keep (s : MemPoolState) (row : TxRow) (x : Nat)
    (hx : x ∈ s.removed)
    (hno : ∀ r ∈ s.mempool, conflictsWith row r = true → r.txid ≠ x) :
    x ∈ (insertOrReplaceMempool s row).removed := by
  unfold insertOrReplaceMempool
  refine List.mem_filter.mpr ⟨hx, ?_⟩
  simp only [Bool.not_eq_true']
  cases hcon : (((s.mempool.filter (conflictsWith row)).map (·.txid)).contains x) with
  | false => rfl
  | true =>
    exfalso
    have hmem := (contains_true_iff _ _).mp hcon
    obtain ⟨r, hr, hrx⟩ := List.mem_map.mp hmem
    exact hno r (List.mem_of_mem_filter hr) (List.of_mem_filter hr) hrx

theorem insertOrReplace_removed_nil (s : MemPoolState) (row : TxRow)
    (h : s.removed = []) : (insertOrReplaceMempool s row).removed = [] := by
  unfold insertOrReplaceMempool
  rw [h]
  rfl

theorem insertOrReplace_nodup (s : MemPoolState) (row : TxRow)
    (h : (s.mempool.map (·.txid)).Nodup) :
    ((insertOrReplaceMempool s row).mempool.map (·.txid)).Nodup := by
  unfold insertOrReplaceMempool
  rw [List.map_append]
  refine List.nodup_append.mpr ⟨?_, ?_, ?_⟩
  · exact List.Nodup.sublist (List.Sublist.map _ (List.filter_sublist _)) h
  · simp
  · intro x hx1 hx2
    simp only [List.map_cons, List.map_nil, List.mem_singleton] at hx2
    subst hx2
    obtain ⟨r, hr, hrx⟩ := List.mem_map.mp hx1
    have hnc := List.of_mem_filter hr
    simp only [Bool.not_eq_true'] at hnc
    unfold conflictsWith at hnc
    simp only [Bool.or_eq_false_iff, beq_eq_false_iff_ne] at hnc
    exact hnc.1.1 hrx

theorem updateMempoolPager_mempool (ph : Nat → Nat → Nat) (s : MemPoolState)
    (t : Nat) : (updateMempoolPager ph s t).mempool = s.mempool := rfl

theorem updateMempoolPager_removed (ph : Nat → Nat → Nat) (s : MemPoolState)
    (t : Nat) : (updateMempoolPager ph s t).removed = s.removed := rfl

theorem updateMempoolPager_bloom (ph : Nat → Nat → Nat) (s : MemPoolState)
    (t : Nat) : (updateMempoolPager ph s t).bloom = s.bloom := rfl

/-- A prior row found by `tryAddPrior` conflicts with the row the
accepted submission writes. -/
theorem tryAddPrior_conflicts (rows : List TxRow) (tip : BlockId)
    (txid tx_fee height oa onon sa sn len now : Nat) (p : TxRow)
    (hp : tryAddPrior rows oa onon sa sn = some p) :
    p ∈ rows ∧
      conflictsWith (mkRow tip txid tx_fee height oa onon sa sn len now) p = true := by
  unfold tryAddPrior at hp
  cases horig : getTxMetadataByAddress rows true oa onon with
  | some q =>
    rw [horig] at hp
    cases hp
    unfold getTxMetadataByAddress at horig
    have hmem := List.mem_of_find?_eq_some horig
    have hpred := List.find?_some horig
    simp only [if_true] at hpred
    simp only [Bool.and_eq_true, beq_iff_eq] at hpred
    refine ⟨hmem, ?_⟩
    unfold conflictsWith mkRow
    simp [hpred.1, hpred.2]
  | none =>
    rw [horig] at hp
    unfold getTxMetadataByAddress at hp
    have hmem := List.mem_of_find?_eq_some hp
    have hpred := List.find?_some hp
    simp only [Bool.false_eq_true, if_false] at hpred
    simp only [Bool.and_eq_true, beq_iff_eq] at hpred
    refine ⟨hmem, ?_⟩
    unfold conflictsWith mkRow
    simp [hpred.1, hpred.2]

/-! ### The reachable-state invariant (amended I1) -/

/-- The auxiliary state invariant: txids are unique across rows, and
every live txid is in the bloom filter or in the tombstone set. -/
def StateInv (s : MemPoolState) : Prop :=
  (s.mempool.map (·.txid)).Nodup ∧
    ∀ r ∈ s.mempool, r.txid ∈ s.bloom ∨ r.txid ∈ s.removed

theorem tryAddState_inv (ph : Nat → Nat → Nat) (s : MemPoolState)
    (tip : BlockId) (txid tx_fee height oa onon sa sn len now : Nat)
    (hinv : StateInv s) :
    StateInv (tryAddState ph s tip txid tx_fee height oa onon sa sn len now
      (tryAddPrior s.mempool oa onon sa sn)) := by
  obtain ⟨hnodup, hlive⟩ := hinv
  set prior := tryAddPrior s.mempool oa onon sa sn with hprior
  set row := mkRow tip txid tx_fee height oa onon sa sn len now with hrow
  set u := (updateBloomCounter s height txid (prior.map (·.txid))).1 with hu
  have hu_mem : u.mempool = s.mempool := updateBloomCounter_mempool _ _ _ _
  set s2 := insertOrReplaceMempool u row with hs2
  have hresult : tryAddState ph s tip txid tx_fee height oa onon sa sn len now
      prior = updateMempoolPager ph s2 txid := rfl
  rw [hresult]
  have hnodup_u : (u.mempool.map (·.txid)).Nodup := by rw [hu_mem]; exact hnodup
  constructor
  · show (s2.mempool.map (·.txid)).Nodup
    exact insertOrReplace_nodup u row hnodup_u
  · intro r' hr'
    show r'.txid ∈ s2.bloom ∨ r'.txid ∈ s2.removed
    have hr2 : r' ∈ s2.mempool := hr'
    rcases (mem_insertOrReplace_mempool u row r').mp hr2 with ⟨hmem, hnc⟩ | rfl
    · -- surviving old row
      rw [hu_mem] at hmem
      have hkeep : ∀ x, x ∈ u.removed → x = r'.txid → x ∈ s2.removed := by
        intro x hxu hxeq
        subst hxeq
        refine insertOrReplace_removed_keep u row r'.txid hxu ?_
        intro q hq hqc hqx
        rw [hu_mem] at hq
        have : q = r' := List.inj_on_of_nodup_map hnodup hq hmem hqx
        subst this
        rw [hqc] at hnc
        cases hnc
      rcases hlive r' hmem with hb | hrm
      · -- was in the bloom filter
        have hxp : prior.map (·.txid) ≠ some r'.txid := by
          intro hcontra
          cases hp : prior with
          | none => rw [hp] at hcontra; cases hcontra
          | some p =>
            rw [hp] at hcontra
            have hptx : p.txid = r'.txid := Option.some.inj hcontra
            obtain ⟨hpmem, hpconf⟩ := tryAddPrior_conflicts s.mempool tip txid
              tx_fee height oa onon sa sn len now p (hprior.symm.trans hp)
            have : p = r' := List.inj_on_of_nodup_map hnodup hpmem hmem hptx
            subst this
            rw [hpconf] at hnc
            cases hnc
        rcases updateBloomCounter_bloom_or_removed s height txid
            (prior.map (·.txid)) r'.txid hb hxp with hub | hur
        · left
          show r'.txid ∈ u.bloom
          exact hub
        · right
          exact hkeep r'.txid hur rfl
      · -- was tombstoned
        right
        exact hkeep r'.txid
          (updateBloomCounter_removed_mono s height txid _ r'.txid hrm) rfl
    · -- the freshly inserted row
      left
      show row.txid ∈ u.bloom
      have : row.txid = txid := rfl
      rw [this]
      exact updateBloomCounter_new_in_bloom s height txid _

theorem garbageCollect_inv (ho : Bool) (s : MemPoolState) (mh : Nat)
    (hinv : StateInv s) : StateInv (garbageCollect ho s mh).1 := by
  obtain ⟨hnodup, hlive⟩ := hinv
  constructor
  · exact List.Nodup.sublist (List.Sublist.map _ (List.filter_sublist _)) hnodup
  · intro r hr
    have hmem : r ∈ s.mempool := List.mem_of_mem_filter hr
    have hpred := List.of_mem_filter hr
    simp only [Bool.not_eq_true', decide_eq_false_iff_not, Nat.not_lt] at hpred
    rcases hlive r hmem with hb | hrm
    · exact Or.inl hb
    · right
      show r.txid ∈ (garbageCollect ho s mh).1.removed
      refine List.mem_filter.mpr ⟨hrm, ?_⟩
      simp only [Bool.not_eq_true']
      cases hcon : ((s.mempool.filter (fun r => r.height < mh)).map (·.txid)).contains r.txid with
      | false => rfl
      | true =>
        exfalso
        obtain ⟨d, hd, hdx⟩ := List.mem_map.mp ((contains_true_iff _ _).mp hcon)
        have hdpred := List.of_mem_filter hd
        have : d = r := List.inj_on_of_nodup_map hnodup
          (List.mem_of_mem_filter hd) hmem hdx
        subst this
        simp only [decide_eq_true_eq] at hdpred
        omega

theorem dropTxs_inv (s : MemPoolState) (txids : List Nat)
    (hinv : StateInv s) : StateInv (dropTxs s txids) := by
  obtain ⟨hnodup, hlive⟩ := hinv
  constructor
  · exact List.Nodup.sublist (List.Sublist.map _ (List.filter_sublist _)) hnodup
  · intro r hr
    have hmem : r ∈ s.mempool := List.mem_of_mem_filter hr
    have hpred := List.of_mem_filter hr
    simp only [Bool.not_eq_true'] at hpred
    rcases hlive r hmem with hb | hrm
    · exact Or.inl hb
    · right
      show r.txid ∈ (dropTxs s txids).removed
      refine List.mem_filter.mpr ⟨hrm, ?_⟩
      simp only [Bool.not_eq_true']
      cases hcon : ((s.mempool.filter (fun r => txids.contains r.txid)).map (·.txid)).contains r.txid with
      | false => rfl
      | true =>
        exfalso
        obtain ⟨d, hd, hdx⟩ := List.mem_map.mp ((contains_true_iff _ _).mp hcon)
        have hdpred := List.of_mem_filter hd
        have : d = r := List.inj_on_of_nodup_map hnodup
          (List.mem_of_mem_filter hd) hmem hdx
        subst this
        rw [hdpred] at hpred
        cases hpred

/-- States reachable from a fresh mempool database through committed
mutating operations: accepted submissions (`try_add_tx`),
garbage collection, and `drop_txs`. -/
inductive Reach : MemPoolState → Prop where
  | init (seed : Nat) : Reach (initState seed)
  | step_add (anc : BlockId → BlockId → Option Nat) (ph : Nat → Nat → Nat)
      (ho : Bool) (s : MemPoolState) (tip : BlockId)
      (txid tx_fee height oa onon sa sn len now : Nat)
      (s' : MemPoolState) (acts : List MpAction) :
      Reach s →
      tryAddTx anc ph ho s tip txid tx_fee height oa onon sa sn len now =
        (.ok s', acts) →
      Reach s'
  | step_gc (ho : Bool) (s : MemPoolState) (mh : Nat) :
      Reach s → Reach (garbageCollect ho s mh).1
  | step_drop (s : MemPoolState) (txids : List Nat) :
      Reach s → Reach (dropTxs s txids)

/-- An accepted `try_add_tx` lands in the state built by
`tryAddState`. -/
theorem tryAddTx_ok_state (anc : BlockId → BlockId → Option Nat)
    (ph : Nat → Nat → Nat) (ho : Bool) (s : MemPoolState) (tip : BlockId)
    (txid tx_fee height oa onon sa sn len now : Nat) (s' : MemPoolState)
    (acts : List MpAction)
    (h : tryAddTx anc ph ho s tip txid tx_fee height oa onon sa sn len now =
      (.ok s', acts)) :
    s' = tryAddState ph s tip txid tx_fee height oa onon sa sn len now
      (tryAddPrior s.mempool oa onon sa sn) := by
  unfold tryAddTx at h
  cases hdec : tryAddDecision anc tip tx_fee
      (tryAddPrior s.mempool oa onon sa sn) with
  | none =>
    rw [hdec] at h
    injection h with h1 h2
    cases h1
  | some reason =>
    rw [hdec] at h
    injection h with h1 h2
    exact (Except.ok.inj h1).symm

theorem reach_inv (s : MemPoolState) (h : Reach s) : StateInv s := by
  induction h with
  | init seed => exact ⟨List.nodup_nil, by intro r hr; cases hr⟩
  | step_add anc ph ho s0 tip txid fee height oa onon sa sn len now s' acts
      _ hok ih =>
    have := tryAddTx_ok_state anc ph ho s0 tip txid fee height oa onon sa sn
      len now s' acts hok
    rw [this]
    exact tryAddState_inv ph s0 tip txid fee height oa onon sa sn len now ih
  | step_gc ho s0 mh _ ih => exact garbageCollect_inv ho s0 mh ih
  | step_drop s0 txids _ ih => exact dropTxs_inv s0 txids ih

/-! ### Action-trace lemmas for the submission path -/

theorem tryAddTx_acts_cases (anc : BlockId → BlockId → Option Nat)
    (ph : Nat → Nat → Nat) (ho : Bool) (s : MemPoolState) (tip : BlockId)
    (txid tx_fee height oa onon sa sn len now : Nat) :
    (tryAddTx anc ph ho s tip txid tx_fee height oa onon sa sn len now).2 = [] ∨
      ∃ p r, (tryAddTx anc ph ho s tip txid tx_fee height oa onon sa sn
        len now).2 = [MpAction.dropped [p] r] := by
  unfold tryAddTx
  cases tryAddDecision anc tip tx_fee (tryAddPrior s.mempool oa onon sa sn) with
  | none => exact Or.inl rfl
  | some rr =>
    cases tryAddPrior s.mempool oa onon sa sn with
    | none => exact Or.inl rfl
    | some p =>
      cases ho with
      | false => exact Or.inl rfl
      | true => exact Or.inr ⟨p.txid, rr, rfl⟩

theorem tryAddTx_acts_no_observer (anc : BlockId → BlockId → Option Nat)
    (ph : Nat → Nat → Nat) (s : MemPoolState) (tip : BlockId)
    (txid tx_fee height oa onon sa sn len now : Nat) :
    (tryAddTx anc ph false s tip txid tx_fee height oa onon sa sn len now).2
      = [] := by
  unfold tryAddTx
  cases tryAddDecision anc tip tx_fee (tryAddPrior s.mempool oa onon sa sn) with
  | none => rfl
  | some rr =>
    cases tryAddPrior s.mempool oa onon sa sn with
    | none => rfl
    | some p => rfl

theorem txSubmit_no_commit (gbh : BlockId → Option Nat)
    (wa : BlockId → StacksTx → Nat → Option MemPoolRejection)
    (anc : BlockId → BlockId → Option Nat) (ph : Nat → Nat → Nat)
    (s : MemPoolState) (tip : BlockId) (tx : StacksTx) (dc ho : Bool)
    (now : Nat) :
    MpAction.commit ∉ (txSubmit gbh wa anc ph s tip tx dc ho now).2 := by
  intro hmem
  unfold txSubmit at hmem
  cases hres : resolveTipHeight gbh tip with
  | error e =>
    rw [hres] at hmem
    cases hmem
  | ok height =>
    rw [hres] at hmem
    cases dc with
    | false =>
      simp only [Bool.false_eq_true, if_false] at hmem
      rcases tryAddTx_acts_cases anc ph ho s tip tx.txid tx.tx_fee height
          tx.origin_address tx.origin_nonce (sponsorPairOf tx).1
          (sponsorPairOf tx).2 tx.len now with hnil | ⟨p, r, heq⟩
      · rw [hnil] at hmem
        cases hmem
      · rw [heq] at hmem
        rcases List.mem_singleton.mp hmem with h
        cases h
    | true =>
      simp only [if_true] at hmem
      cases hwa : wa tip tx tx.len with
      | some rej =>
        rw [hwa] at hmem
        rcases List.mem_singleton.mp hmem with h
        cases h
      | none =>
        rw [hwa] at hmem
        rcases List.mem_cons.mp hmem with h | hmem2
        · cases h
        · rcases tryAddTx_acts_cases anc ph ho s tip tx.txid tx.tx_fee height
              tx.origin_address tx.origin_nonce (sponsorPairOf tx).1
              (sponsorPairOf tx).2 tx.len now with hnil | ⟨p, r, heq⟩
          · rw [hnil] at hmem2
            cases hmem2
          · rw [heq] at hmem2
            rcases List.mem_singleton.mp hmem2 with h
            cases h

/-! ### Concrete fixtures used by witnesses and counterexamples -/

/-- A chainstate ancestry oracle under which no two distinct index
blocks are related (each tip is its own fork). -/
def anc0 : BlockId → BlockId → Option Nat := fun _ _ => none

/-- A concrete stand-in for the pager hash `H(seed ‖ txid)`. -/
def ph0 : Nat → Nat → Nat := fun seed t => seed + 2 * t + 1

/-- A chainstate in which every tip resolves to stacks height 3. -/
def gbh1 : BlockId → Option Nat := fun _ => some 3

/-- An admission oracle that admits everything. -/
def wa0 : BlockId → StacksTx → Nat → Option MemPoolRejection :=
  fun _ _ _ => none

/-- Extract the committed state of a submission result (fallback: the
empty store). -/
def exState (e : Except MemPoolRejection MemPoolState × List MpAction) :
    MemPoolState :=
  match e.1 with
  | .ok s => s
  | .error _ => initState 0

/-- Step 1: self-sponsored `A` (txid 1, origin (10,1), fee 5, height 3,
tip (0,1)). -/
def c2s1 : MemPoolState :=
  exState (tryAddTx anc0 ph0 false (initState 0) (0, 1) 1 5 3 10 1 10 1 1 0)

/-- Step 2: `B` (txid 2, origin (20,2), sponsor (30,3), fee 5,
height 3, tip (0,1)). -/
def c2s2 : MemPoolState :=
  exState (tryAddTx anc0 ph0 false c2s1 (0, 1) 2 5 3 20 2 30 3 1 0)

/-- Step 3: `K` (txid 3, origin (10,1) conflicting with `A`, sponsor
(30,3) conflicting with `B`, fee 9): replace-by-fee displacing `A`;
the `INSERT OR REPLACE` also deletes `B`, whose bloom entry is
orphaned. -/
def c2s3 : MemPoolState :=
  exState (tryAddTx anc0 ph0 false c2s2 (0, 1) 3 9 3 10 1 30 3 1 0)

/-- Step 4: `B` resubmitted at tip (0,2) on another fork, displacing
`K` (sponsor conflict, cross-fork): txid 2 is now counted twice in the
bloom filter. -/
def c2s4 : MemPoolState :=
  exState (tryAddTx anc0 ph0 false c2s3 (0, 2) 2 5 3 20 2 30 3 1 0)

/-- Step 5: unrelated `D` (txid 4) at height 5: first row at height 5,
so the window advances and height 3 is pruned, tombstoning txid 2 while
one bloom count of it remains. -/
def c2s5 : MemPoolState :=
  exState (tryAddTx anc0 ph0 false c2s4 (0, 1) 4 5 5 40 4 40 4 1 0)

/-- The replace-by-fee competitor of the C5 scenario. -/
def tx2 : StacksTx :=
  { txid := 2, tx_fee := 9, origin_address := 10, origin_nonce := 1,
    sponsor := none, len := 1 }

/-! ### C1 — conflict/replacement policy of `try_add_tx` -/

theorem tryAddDecision_some (anc : BlockId → BlockId → Option Nat)
    (tip : BlockId) (tx_fee : Nat) (p : TxRow) :
    tryAddDecision anc tip tx_fee (some p) =
      if tx_fee > p.tx_fee then some .REPLACE_BY_FEE
      else if !(areBlocksInSameFork anc
          (p.consensus_hash, p.block_header_hash) tip) then
        some .REPLACE_ACROSS_FORK
      else none := rfl

theorem tryAddState_row_mem (ph : Nat → Nat → Nat) (s : MemPoolState)
    (tip : BlockId) (txid tx_fee height oa onon sa sn len now : Nat)
    (prior : Option TxRow) :
    mkRow tip txid tx_fee height oa onon sa sn len now ∈
      (tryAddState ph s tip txid tx_fee height oa onon sa sn len now
        prior).mempool := by
  show mkRow tip txid tx_fee height oa onon sa sn len now ∈
    (insertOrReplaceMempool _ _).mempool
  exact (mem_insertOrReplace_mempool _ _ _).mpr (Or.inr rfl)

/-- C1: a submission that finds a conflicting prior row (origin pair
first, else sponsor pair) is accepted iff its fee strictly exceeds the
prior's or the fork oracle says the two tips are on different forks;
otherwise `try_add_tx` returns `ConflictingNonceInMempool` (and, the
result being an error, nothing is inserted).  Without a prior it is
always accepted, the new row landing in the table. -/
theorem try_add_tx_admission (anc : BlockId → BlockId → Option Nat)
    (ph : Nat → Nat → Nat) (ho : Bool) (s : MemPoolState) (tip : BlockId)
    (txid tx_fee height oa onon sa sn len now : Nat) :
    (match tryAddPrior s.mempool oa onon sa sn with
     | none =>
       ∃ s', (tryAddTx anc ph ho s tip txid tx_fee height oa onon sa sn
           len now).1 = .ok s' ∧
         mkRow tip txid tx_fee height oa onon sa sn len now ∈ s'.mempool
     | some p =>
       if p.tx_fee < tx_fee ∨
           areBlocksInSameFork anc (p.consensus_hash, p.block_header_hash) tip
             = false then
         ∃ s', (tryAddTx anc ph ho s tip txid tx_fee height oa onon sa sn
             len now).1 = .ok s' ∧
           mkRow tip txid tx_fee height oa onon sa sn len now ∈ s'.mempool
       else
         (tryAddTx anc ph ho s tip txid tx_fee height oa onon sa sn
           len now).1 = .error .ConflictingNonceInMempool) := by
  cases hp : tryAddPrior s.mempool oa onon sa sn with
  | none =>
    refine ⟨tryAddState ph s tip txid tx_fee height oa onon sa sn len now
      (tryAddPrior s.mempool oa onon sa sn), ?_, ?_⟩
    · unfold tryAddTx
      have hdec : tryAddDecision anc tip tx_fee
          (tryAddPrior s.mempool oa onon sa sn) = some .REPLACE_BY_FEE := by
        rw [hp]
        rfl
      rw [hdec]
    · exact tryAddState_row_mem ph s tip txid tx_fee height oa onon sa sn
        len now _
  | some p =>
    show if p.tx_fee < tx_fee ∨
        areBlocksInSameFork anc (p.consensus_hash, p.block_header_hash) tip
          = false then
      ∃ s', (tryAddTx anc ph ho s tip txid tx_fee height oa onon sa sn
          len now).1 = .ok s' ∧
        mkRow tip txid tx_fee height oa onon sa sn len now ∈ s'.mempool
    else
      (tryAddTx anc ph ho s tip txid tx_fee height oa onon sa sn
        len now).1 = .error .ConflictingNonceInMempool
    by_cases hacc : p.tx_fee < tx_fee ∨
        areBlocksInSameFork anc (p.consensus_hash, p.block_header_hash) tip
          = false
    · rw [if_pos hacc]
      have hdec : ∃ rr, tryAddDecision anc tip tx_fee
          (tryAddPrior s.mempool oa onon sa sn) = some rr := by
        rw [hp, tryAddDecision_some]
        by_cases hfee : tx_fee > p.tx_fee
        · exact ⟨.REPLACE_BY_FEE, by rw [if_pos hfee]⟩
        · rcases hacc with hacc | hfork
          · exact absurd hacc hfee
          · refine ⟨.REPLACE_ACROSS_FORK, ?_⟩
            rw [if_neg hfee, if_pos]
            rw [hfork]
            rfl
      obtain ⟨rr, hdec⟩ := hdec
      refine ⟨tryAddState ph s tip txid tx_fee height oa onon sa sn len now
        (tryAddPrior s.mempool oa onon sa sn), ?_, ?_⟩
      · unfold tryAddTx
        rw [hdec]
      · exact tryAddState_row_mem ph s tip txid tx_fee height oa onon sa sn
          len now _
    · rw [if_neg hacc]
      push_neg at hacc
      obtain ⟨hfee, hfork⟩ := hacc
      have hdec : tryAddDecision anc tip tx_fee
          (tryAddPrior s.mempool oa onon sa sn) = none := by
        rw [hp, tryAddDecision_some]
        rw [if_neg (by omega : ¬ tx_fee > p.tx_fee), if_neg]
        simp only [Bool.not_eq_true']
        intro hc
        rw [hc] at hfork
        exact hfork rfl
      unfold tryAddTx
      rw [hdec]

/-! ### C2 — invariant I1 (amended: a live txid can be in both) -/

/-- C2 (amended): after every committed mutating operation, every live
txid is in the bloom filter or in the tombstone set — never neither;
the "never both" half of I1 fails (see the counterexample), so only
the disjunction is an invariant of reachable states. -/
theorem live_txid_bloom_or_tombstone (s : MemPoolState) (h : Reach s) :
    ∀ r ∈ s.mempool, r.txid ∈ s.bloom ∨ r.txid ∈ s.removed :=
  (reach_inv s h).2

theorem live_txid_bloom_or_tombstone_witness :
    (mkRow (0, 1) 1 5 3 10 1 10 1 1 0).txid ∈ c2s1.bloom ∨
      (mkRow (0, 1) 1 5 3 10 1 10 1 1 0).txid ∈ c2s1.removed :=
  live_txid_bloom_or_tombstone c2s1
    (Reach.step_add anc0 ph0 false (initState 0) (0, 1) 1 5 3 10 1 10 1 1 0
      c2s1 [] (Reach.init 0) rfl)
    (mkRow (0, 1) 1 5 3 10 1 10 1 1 0) (by decide)

/-- C2 (counterexample): after five accepted submissions — a
double-conflict replacement that orphans a bloom entry, the
resubmission of the dead txid on another fork, then a window
advance — the live row with txid 2 is in the bloom filter *and* in the
tombstone set, refuting "never both". -/
theorem live_txid_in_bloom_and_tombstone_cex :
    (tryAddTx anc0 ph0 false c2s4 (0, 1) 4 5 5 40 4 40 4 1 0).1 =
        .ok c2s5 ∧
      (∃ r ∈ c2s5.mempool, r.txid = 2) ∧
      (2 : Nat) ∈ c2s5.bloom ∧ (2 : Nat) ∈ c2s5.removed := by
  refine ⟨rfl, ?_, ?_, ?_⟩ <;> decide

/-! ### C5 — event callbacks versus commit (amended: they precede it) -/

/-- C5 (amended): dropped-transaction events are emitted while the
write transaction is still open: in every successful `submit` the
trace ends with the commit, and every emitted event (admission check
or dropped notification) strictly precedes it. -/
theorem submit_events_precede_commit (gbh : BlockId → Option Nat)
    (wa : BlockId → StacksTx → Nat → Option MemPoolRejection)
    (anc : BlockId → BlockId → Option Nat) (ph : Nat → Nat → Nat)
    (s : MemPoolState) (tip : BlockId) (tx : StacksTx) (ho : Bool)
    (now : Nat) (s' : MemPoolState)
    (h : (submit gbh wa anc ph s tip tx ho now).1 = .ok s') :
    ∃ tr, (submit gbh wa anc ph s tip tx ho now).2 = tr ++ [MpAction.commit] ∧
      MpAction.commit ∉ tr := by
  unfold submit at h ⊢
  cases htx : txSubmit gbh wa anc ph s tip tx true ho now with
  | mk fst acts =>
    cases fst with
    | error e =>
      rw [htx] at h
      cases h
    | ok s'' =>
      refine ⟨acts, rfl, ?_⟩
      have := txSubmit_no_commit gbh wa anc ph s tip tx true ho now
      rw [htx] at this
      exact this

theorem submit_events_precede_commit_witness :
    ∃ tr, (submit gbh1 wa0 anc0 ph0 c2s1 (0, 1) tx2 true 0).2 =
        tr ++ [MpAction.commit] ∧ MpAction.commit ∉ tr :=
  submit_events_precede_commit gbh1 wa0 anc0 ph0 c2s1 (0, 1) tx2 true 0
    (exState (submit gbh1 wa0 anc0 ph0 c2s1 (0, 1) tx2 true 0)) rfl

/-- C5 (counterexample): a concrete replace-by-fee submission with an
event observer emits its dropped event at trace position 1, strictly
before the commit at position 2 — the event fires inside the
transaction, not after the commit. -/
theorem submit_event_after_commit_cex :
    (submit gbh1 wa0 anc0 ph0 c2s1 (0, 1) tx2 true 0).2 =
        [MpAction.adminCheck 2,
         MpAction.dropped [1] MemPoolDropReason.REPLACE_BY_FEE,
         MpAction.commit] ∧
      (submit gbh1 wa0 anc0 ph0 c2s1 (0, 1) tx2 true 0).2.get? 1 =
        some (MpAction.dropped [1] MemPoolDropReason.REPLACE_BY_FEE) ∧
      (submit gbh1 wa0 anc0 ph0 c2s1 (0, 1) tx2 true 0).2.get? 2 =
        some MpAction.commit ∧ (1 : Nat) < 2 := by
  refine ⟨?_, ?_, ?_, ?_⟩ <;> decide

/-! ### C9 — `submit_raw` runs no admission check, emits no event -/

/-- C9: `submit_raw` passes `do_admission_checks = false` and no event
observer, so its action trace never contains an admission-oracle
invocation or a dropped-transactions event — only (possibly) the final
commit. -/
theorem submit_raw_no_admission_no_drop (gbh : BlockId → Option Nat)
    (wa : BlockId → StacksTx → Nat → Option MemPoolRejection)
    (anc : BlockId → BlockId → Option Nat) (ph : Nat → Nat → Nat)
    (dec : List Nat → Option StacksTx) (s : MemPoolState) (tip : BlockId)
    (bytes : List Nat) (now : Nat) :
    ∀ a ∈ (submitRaw gbh wa anc ph dec s tip bytes now).2,
      a = MpAction.commit := by
  have hacts : ∀ (tx : StacksTx) fst acts,
      txSubmit gbh wa anc ph s tip tx false false now = (fst, acts) →
      acts = [] := by
    intro tx fst acts htx
    unfold txSubmit at htx
    cases hres : resolveTipHeight gbh tip with
    | error e =>
      rw [hres] at htx
      injection htx with h1 h2
      exact h2.symm
    | ok height =>
      rw [hres] at htx
      simp only [Bool.false_eq_true, if_false] at htx
      have hnil := tryAddTx_acts_no_observer anc ph s tip tx.txid
        tx.tx_fee height tx.origin_address tx.origin_nonce
        (sponsorPairOf tx).1 (sponsorPairOf tx).2 tx.len now
      rw [htx] at hnil
      exact hnil
  intro a ha
  unfold submitRaw at ha
  split at ha
  · cases ha
  · rename_i tx hdec
    split at ha
    · rename_i s' acts htx
      have := hacts tx _ _ htx
      subst this
      simpa using ha
    · rename_i e acts htx
      have := hacts tx _ _ htx
      subst this
      cases ha

/-- Witness for C9: a concrete raw submission whose trace holds the
commit and nothing else. -/
theorem submit_raw_no_admission_no_drop_witness :
    MpAction.commit = MpAction.commit :=
  submit_raw_no_admission_no_drop gbh1 wa0 anc0 ph0 (fun _ => some tx2)
    (initState 0) (0, 1) [] 0 MpAction.commit (by decide)

/-! ### C10 — `drop_txs` deletes rows, cascades, leaves bloom alone -/

/-- C10: `drop_txs` deletes exactly the listed txids' rows from the
main table; the cascade clears the tombstone and pager entries of the
deleted rows (and nothing else); the bloom filter state is completely
unchanged — no bloom insert or remove happens. -/
theorem drop_txs_spec (s : MemPoolState) (txids : List Nat) :
    (dropTxs s txids).bloom = s.bloom ∧
      (dropTxs s txids).seed = s.seed ∧
      (∀ r : TxRow, r ∈ (dropTxs s txids).mempool ↔
        r ∈ s.mempool ∧ r.txid ∉ txids) ∧
      (∀ x : Nat, x ∈ (dropTxs s txids).removed ↔
        x ∈ s.removed ∧ ¬∃ r ∈ s.mempool, r.txid = x ∧ x ∈ txids) ∧
      (∀ pr : Nat × Nat, pr ∈ (dropTxs s txids).randomized ↔
        pr ∈ s.randomized ∧ ¬∃ r ∈ s.mempool, r.txid = pr.1 ∧ pr.1 ∈ txids) := by
  refine ⟨rfl, rfl, ?_, ?_, ?_⟩
  · intro r
    unfold dropTxs
    simp only [List.mem_filter, Bool.not_eq_true']
    constructor
    · rintro ⟨hr, hc⟩
      refine ⟨hr, ?_⟩
      intro hmem
      rw [(contains_true_iff _ _).mpr hmem] at hc
      cases hc
    · rintro ⟨hr, hnm⟩
      refine ⟨hr, ?_⟩
      cases hc : txids.contains r.txid with
      | false => rfl
      | true => exact absurd ((contains_true_iff _ _).mp hc) hnm
  · intro x
    unfold dropTxs
    simp only [List.mem_filter, Bool.not_eq_true']
    constructor
    · rintro ⟨hx, hc⟩
      refine ⟨hx, ?_⟩
      rintro ⟨r, hr, rfl, hmem⟩
      have : ((s.mempool.filter (fun r => txids.contains r.txid)).map
          (·.txid)).contains r.txid = true := by
        rw [contains_true_iff]
        exact List.mem_map.mpr ⟨r, List.mem_filter.mpr
          ⟨hr, (contains_true_iff _ _).mpr hmem⟩, rfl⟩
      rw [this] at hc
      cases hc
    · rintro ⟨hx, hno⟩
      refine ⟨hx, ?_⟩
      cases hc : (((s.mempool.filter (fun r => txids.contains r.txid)).map
          (·.txid)).contains x) with
      | false => rfl
      | true =>
        exfalso
        obtain ⟨r, hr, hrx⟩ := List.mem_map.mp ((contains_true_iff _ _).mp hc)
        have hcr : txids.contains r.txid = true := by
          have h0 := List.of_mem_filter hr
          exact h0
        exact hno ⟨r, List.mem_of_mem_filter hr, hrx,
          hrx ▸ (contains_true_iff _ _).mp hcr⟩
  · intro pr
    unfold dropTxs
    simp only [List.mem_filter, Bool.not_eq_true']
    constructor
    · rintro ⟨hx, hc⟩
      refine ⟨hx, ?_⟩
      rintro ⟨r, hr, hrx, hmem⟩
      have : ((s.mempool.filter (fun r => txids.contains r.txid)).map
          (·.txid)).contains pr.1 = true := by
        rw [contains_true_iff]
        exact List.mem_map.mpr ⟨r, List.mem_filter.mpr
          ⟨hr, (contains_true_iff _ _).mpr (hrx ▸ hmem)⟩, hrx⟩
      rw [this] at hc
      cases hc
    · rintro ⟨hx, hno⟩
      refine ⟨hx, ?_⟩
      cases hc : (((s.mempool.filter (fun r => txids.contains r.txid)).map
          (·.txid)).contains pr.1) with
      | false => rfl
      | true =>
        exfalso
        obtain ⟨r, hr, hrx⟩ := List.mem_map.mp ((contains_true_iff _ _).mp hc)
        have hcr : txids.contains r.txid = true := by
          have h0 := List.of_mem_filter hr
          exact h0
        exact hno ⟨r, List.mem_of_mem_filter hr, hrx,
          hrx ▸ (contains_true_iff _ _).mp hcr⟩

/-! ### C4 — window advancement (prune at `h − D`) -/

theorem ubcPruned_eq_prune (s : MemPoolState) (h : Nat)
    (hno : ∀ r ∈ s.mempool, r.height ≠ h) (hh : BLOOM_COUNTER_DEPTH < h) :
    ubcPruned s h = pruneBloomCounter s (h - BLOOM_COUNTER_DEPTH) := by
  unfold ubcPruned
  rw [if_pos]
  have hany : s.mempool.any (fun r => r.height == h) = false := by
    cases hcase : s.mempool.any (fun r => r.height == h) with
    | false => rfl
    | true =>
      exfalso
      obtain ⟨r, hr, hrh⟩ := List.any_eq_true.mp hcase
      exact hno r hr (beq_iff_eq.mp hrh)
  rw [hany]
  simp [hh]

theorem ubcPruned_eq_self (s : MemPoolState) (h : Nat)
    (hcond : (∃ r ∈ s.mempool, r.height = h) ∨ ¬ BLOOM_COUNTER_DEPTH < h) :
    ubcPruned s h = s := by
  unfold ubcPruned
  rw [if_neg]
  intro hcontra
  rw [Bool.and_eq_true] at hcontra
  obtain ⟨h1, h2⟩ := hcontra
  rcases hcond with ⟨r, hr, hrh⟩ | hlt
  · have : s.mempool.any (fun r => r.height == h) = true :=
      List.any_eq_true.mpr ⟨r, hr, beq_iff_eq.mpr hrh⟩
    rw [this] at h1
    cases h1
  · exact hlt (of_decide_eq_true h2)

theorem ubcAfterPrior_count (s : MemPoolState) (h : Nat) (p : Option Nat)
    (x : Nat) (hxp : p ≠ some x) :
    (ubcAfterPrior s h p).bloom.count x = (ubcPruned s h).bloom.count x := by
  unfold ubcAfterPrior
  cases p with
  | none => rfl
  | some q =>
    have hne : x ≠ q := fun hc => hxp (by rw [hc])
    exact List.count_erase_of_ne hne _

theorem evictCandidate_not_removed (rows : List TxRow) (removed : List Nat)
    (h : Nat) (e : TxRow) (he : evictCandidate rows removed h = some e) :
    e ∈ rows ∧ h - BLOOM_COUNTER_DEPTH < e.height ∧ e.txid ∉ removed ∧
      ∀ r' ∈ rows, h - BLOOM_COUNTER_DEPTH < r'.height →
        r'.txid ∉ removed → e.tx_fee ≤ r'.tx_fee := by
  unfold evictCandidate minFeeRowFirst at he
  have hmem := minByFirst_mem _ _ _ he
  have hmin := minByFirst_min _ _ _ he
  have hpred := List.of_mem_filter hmem
  simp only [Bool.and_eq_true, decide_eq_true_eq, Bool.not_eq_true'] at hpred
  refine ⟨List.mem_of_mem_filter hmem, hpred.1, ?_, ?_⟩
  · intro hmem2
    rw [(contains_true_iff _ _).mpr hmem2] at hpred
    simp at hpred
  · intro r' hr' hh' hnr'
    refine hmin r' (List.mem_filter.mpr ⟨hr', ?_⟩)
    simp only [Bool.and_eq_true, decide_eq_true_eq, Bool.not_eq_true']
    refine ⟨hh', ?_⟩
    cases hc : removed.contains r'.txid with
    | false => rfl
    | true => exact absurd ((contains_true_iff _ _).mp hc) hnr'

theorem ubcEvict_count_of_removed (s2 : MemPoolState) (h x : Nat)
    (hx : x ∈ s2.removed) :
    (ubcEvict s2 h).1.bloom.count x = s2.bloom.count x := by
  unfold ubcEvict
  split
  · cases he : evictCandidate s2.mempool s2.removed h with
    | none => rfl
    | some e =>
      show (s2.bloom.erase e.txid).count x = s2.bloom.count x
      obtain ⟨_, _, hnr, _⟩ := evictCandidate_not_removed _ _ _ _ he
      have hne : x ≠ e.txid := fun hc => hnr (hc ▸ hx)
      exact List.count_erase_of_ne hne _
  · rfl

/-- C4: when `try_add_tx` accepts a row at height `h` and no row
existed at `h` and `h > D` (`BLOOM_COUNTER_DEPTH = 2`), the bloom
update prunes height `h − D`: every non-tombstoned row there is
inserted into the tombstone set and one count of it is removed from
the bloom filter (provided it is neither the new txid nor the
displaced prior, which receive their own bloom operations); and when a
row already existed at `h` or `h ≤ D`, no pruning occurs — the
tombstone set grows only by the saturation evictee, if any. -/
theorem update_bloom_counter_window (s : MemPoolState) (h t : Nat)
    (p : Option Nat) (hnodup : (s.mempool.map (·.txid)).Nodup) :
    ((∀ r0 ∈ s.mempool, r0.height ≠ h) → BLOOM_COUNTER_DEPTH < h →
      ∀ r ∈ s.mempool, r.height = h - BLOOM_COUNTER_DEPTH →
        r.txid ∉ s.removed →
        r.txid ∈ (updateBloomCounter s h t p).1.removed ∧
          (r.txid ≠ t → p ≠ some r.txid →
            (updateBloomCounter s h t p).1.bloom.count r.txid =
              s.bloom.count r.txid - 1)) ∧
    (((∃ r ∈ s.mempool, r.height = h) ∨ ¬ BLOOM_COUNTER_DEPTH < h) →
      (updateBloomCounter s h t p).1.removed =
        (match (updateBloomCounter s h t p).2 with
         | some e => tombInsert s.removed e
         | none => s.removed)) := by
  constructor
  · intro hno hh r hr hrh hnr
    have hprune := ubcPruned_eq_prune s h hno hh
    have htarget : r.txid ∈ pruneTargets s (h - BLOOM_COUNTER_DEPTH) :=
      (mem_pruneTargets s _ r.txid).mpr ⟨r, hr, rfl, hrh, hnr⟩
    have hremoved_mid : r.txid ∈ (ubcPruned s h).removed := by
      rw [hprune, pruneBloomCounter_eq]
      exact (mem_foldl_tombInsert _ _ _).mpr (Or.inr htarget)
    constructor
    · rw [updateBloomCounter_removed]
      refine ubcEvict_removed_mono _ _ _ ?_
      rw [ubcAfterPrior_removed]
      exact hremoved_mid
    · intro hnt hnp
      have hcount1 : (ubcPruned s h).bloom.count r.txid =
          s.bloom.count r.txid - 1 := by
        rw [hprune, pruneBloomCounter_eq]
        show ((pruneTargets s (h - BLOOM_COUNTER_DEPTH)).foldl
          List.erase s.bloom).count r.txid = s.bloom.count r.txid - 1
        rw [count_foldl_erase]
        have hone : (pruneTargets s (h - BLOOM_COUNTER_DEPTH)).count r.txid
            = 1 := by
          refine List.count_eq_one_of_mem ?_ htarget
          exact List.Nodup.sublist
            (List.Sublist.map _ (List.filter_sublist _)) hnodup
        rw [hone]
      have hcount2 : (ubcAfterPrior s h p).bloom.count r.txid =
          s.bloom.count r.txid - 1 := by
        rw [ubcAfterPrior_count s h p r.txid hnp, hcount1]
      have hmid : r.txid ∈ (ubcAfterPrior s h p).removed := by
        rw [ubcAfterPrior_removed]
        exact hremoved_mid
      have hcount3 := ubcEvict_count_of_removed (ubcAfterPrior s h p) h
        r.txid hmid
      show ((ubcEvict (ubcAfterPrior s h p) h).1.bloom ++ [t]).count r.txid
        = s.bloom.count r.txid - 1
      rw [List.count_append, hcount3, hcount2]
      have : [t].count r.txid = 0 := by
        simp [List.count_singleton, hnt]
      rw [this]
      omega
  · intro hcond
    have hself := ubcPruned_eq_self s h hcond
    have hrem : (ubcAfterPrior s h p).removed = s.removed := by
      rw [ubcAfterPrior_removed, hself]
    show (ubcEvict (ubcAfterPrior s h p) h).1.removed =
      (match (ubcEvict (ubcAfterPrior s h p) h).2 with
       | some e => tombInsert s.removed e
       | none => s.removed)
    rw [← hrem]
    unfold ubcEvict
    split
    · cases he : evictCandidate (ubcAfterPrior s h p).mempool
          (ubcAfterPrior s h p).removed h with
      | none => rfl
      | some e => rfl
    · rfl

/-- The height-1 row of the C4 witness scenario. -/
def c4row : TxRow :=
  { txid := 7, origin_address := 1, origin_nonce := 1, sponsor_address := 1,
    sponsor_nonce := 1, tx_fee := 5, length := 1, consensus_hash := 0,
    block_header_hash := 1, height := 1, accept_time := 0 }

/-- A store holding one recent row at height 1. -/
def c4s : MemPoolState :=
  { mempool := [c4row], removed := [], randomized := [(7, 9)],
    bloom := [7], seed := 0 }

theorem update_bloom_counter_window_witness :
    (7 : Nat) ∈ (updateBloomCounter c4s 3 8 none).1.removed ∧
      (updateBloomCounter c4s 3 8 none).1.bloom.count 7 =
        c4s.bloom.count 7 - 1 := by
  have hmain := (update_bloom_counter_window c4s 3 8 none (by decide)).1
    (by decide) (by decide) c4row (by decide) (by decide) (by decide)
  exact ⟨hmain.1, hmain.2 (by decide) (by decide)⟩

/-! ### C3 — saturation eviction -/

theorem updateBloomCounter_snd (s : MemPoolState) (h t : Nat)
    (p : Option Nat) :
    (updateBloomCounter s h t p).2 = (ubcEvict (ubcAfterPrior s h p) h).2 :=
  rfl

theorem ubcEvict_cases (s2 : MemPoolState) (h : Nat) :
    (getNumRecentTxs s2.mempool < MAX_BLOOM_COUNTER_TXS →
      ubcEvict s2 h = (s2, none)) ∧
    (evictCandidate s2.mempool s2.removed h = none →
      ubcEvict s2 h = (s2, none)) ∧
    (∀ r, MAX_BLOOM_COUNTER_TXS ≤ getNumRecentTxs s2.mempool →
      evictCandidate s2.mempool s2.removed h = some r →
      ubcEvict s2 h =
        ({ s2 with bloom := s2.bloom.erase r.txid,
                   removed := tombInsert s2.removed r.txid }, some r.txid)) := by
  refine ⟨?_, ?_, ?_⟩
  · intro hlt
    unfold ubcEvict
    rw [if_neg (by omega)]
  · intro hnone
    unfold ubcEvict
    split
    · rw [hnone]
    · rfl
  · intro r hge hsome
    unfold ubcEvict
    rw [if_pos hge, hsome]

/-- C3 (amended): the saturation check of `update_bloom_counter` fires
when the number of *all* rows (tombstoned included) in the window
`(max_height − D, max_height]` — `max_height` taken over the existing
table — reaches `N = 8192`; the evictee, when one exists, is a
lowest-fee non-tombstoned row with `height > h − D` for the *new*
row's height `h` (no upper height bound): it is tombstoned and
reported, its row is not deleted, and the new txid is then inserted
into the bloom filter.  When the count is below `N` nothing is
evicted; and the eviction can also come up empty with the count at or
above `N` (see the counterexample). -/
theorem update_bloom_counter_saturation (s : MemPoolState) (h t : Nat)
    (p : Option Nat) :
    (updateBloomCounter s h t p).1.mempool = s.mempool ∧
      t ∈ (updateBloomCounter s h t p).1.bloom ∧
      (getNumRecentTxs s.mempool < MAX_BLOOM_COUNTER_TXS →
        (updateBloomCounter s h t p).2 = none) ∧
      (∀ e, (updateBloomCounter s h t p).2 = some e →
        MAX_BLOOM_COUNTER_TXS ≤ getNumRecentTxs s.mempool ∧
          e ∈ (updateBloomCounter s h t p).1.removed ∧
          ∃ r ∈ s.mempool, r.txid = e ∧
            h - BLOOM_COUNTER_DEPTH < r.height ∧
            r.txid ∉ (ubcAfterPrior s h p).removed ∧
            ∀ r' ∈ s.mempool, h - BLOOM_COUNTER_DEPTH < r'.height →
              r'.txid ∉ (ubcAfterPrior s h p).removed →
              r.tx_fee ≤ r'.tx_fee) := by
  have hmem2 : (ubcAfterPrior s h p).mempool = s.mempool :=
    ubcAfterPrior_mempool s h p
  have hnum : getNumRecentTxs (ubcAfterPrior s h p).mempool =
      getNumRecentTxs s.mempool := by rw [hmem2]
  refine ⟨updateBloomCounter_mempool s h t p,
    updateBloomCounter_new_in_bloom s h t p, ?_, ?_⟩
  · intro hlt
    rw [updateBloomCounter_snd]
    rw [(ubcEvict_cases (ubcAfterPrior s h p) h).1 (by omega)]
  · intro e hsome
    rw [updateBloomCounter_snd] at hsome
    by_cases hge : MAX_BLOOM_COUNTER_TXS ≤
        getNumRecentTxs (ubcAfterPrior s h p).mempool
    · cases hc : evictCandidate (ubcAfterPrior s h p).mempool
          (ubcAfterPrior s h p).removed h with
      | none =>
        rw [(ubcEvict_cases (ubcAfterPrior s h p) h).2.1 hc] at hsome
        cases hsome
      | some r =>
        rw [(ubcEvict_cases (ubcAfterPrior s h p) h).2.2 r hge hc] at hsome
        have he : r.txid = e := Option.some.inj hsome
        obtain ⟨hrmem, hrh, hrnr, hrmin⟩ :=
          evictCandidate_not_removed _ _ _ _ hc
        rw [hmem2] at hrmem
        refine ⟨by omega, ?_, r, hrmem, he, hrh, hrnr, ?_⟩
        · rw [updateBloomCounter_removed,
            (ubcEvict_cases (ubcAfterPrior s h p) h).2.2 r hge hc]
          exact he ▸ (mem_tombInsert _ _ _).mpr (Or.inr rfl)
        · intro r' hr' hh' hnr'
          exact hrmin r' (hmem2 ▸ hr') hh' hnr'
    · rw [(ubcEvict_cases (ubcAfterPrior s h p) h).1 (by omega)] at hsome
      cases hsome

theorem update_bloom_counter_saturation_witness :
    (updateBloomCounter c4s 3 8 none).1.mempool = c4s.mempool ∧
      (8 : Nat) ∈ (updateBloomCounter c4s 3 8 none).1.bloom ∧
      (updateBloomCounter c4s 3 8 none).2 = none := by
  obtain ⟨h1, h2, h3, _⟩ := update_bloom_counter_saturation c4s 3 8 none
  exact ⟨h1, h2, h3 (by decide)⟩


/-- One of 8192 distinct recent rows at height 10. -/
def bigRow (i : Nat) : TxRow :=
  { txid := i, origin_address := 100000 + i, origin_nonce := 0,
    sponsor_address := 200000 + i, sponsor_nonce := 0, tx_fee := 5,
    length := 1, consensus_hash := 0, block_header_hash := 1, height := 10,
    accept_time := 0 }

/-- A store saturated with `N = 8192` live non-tombstoned rows, all at
height 10. -/
abbrev bigState : MemPoolState :=
  { mempool := (List.range 8192).map bigRow, removed := [],
    randomized := (List.range 8192).map (fun i => (i, i + 1)),
    bloom := List.range 8192, seed := 0 }

theorem bigState_mempool :
    bigState.mempool = (List.range 8192).map bigRow := by with_reducible rfl

theorem bigState_removed : bigState.removed = [] := by with_reducible rfl

theorem bigState_heights : ∀ r ∈ bigState.mempool, r.height = 10 := by
  rw [bigState_mempool]
  intro r hr
  obtain ⟨i, _, rfl⟩ := List.mem_map.mp hr
  rfl

theorem bigState_origins : ∀ r ∈ bigState.mempool,
    r.origin_address = 100000 + r.txid ∧ r.txid < 8192 ∧
      r.sponsor_address = 200000 + r.txid := by
  rw [bigState_mempool]
  intro r hr
  obtain ⟨i, hi, rfl⟩ := List.mem_map.mp hr
  exact ⟨rfl, List.mem_range.mp hi, rfl⟩

theorem foldl_max_replicate (v : Nat) :
    ∀ (n : Nat) (acc : Nat),
      (List.replicate (n + 1) v).foldl Nat.max acc = Nat.max acc v := by
  intro n
  induction n with
  | zero => intro acc; rfl
  | succ m ih =>
    intro acc
    show (List.replicate (m + 1) v).foldl Nat.max (Nat.max acc v) = Nat.max acc v
    rw [ih (Nat.max acc v)]
    exact Nat.max_eq_left (Nat.le_max_right acc v)

theorem map_height_all_eq (v : Nat) :
    ∀ (l : List TxRow), (∀ r ∈ l, r.height = v) →
      l.map (·.height) = List.replicate l.length v := by
  intro l
  induction l with
  | nil => intro _; rfl
  | cons b m ihm =>
    intro hall
    rw [List.map_cons, hall b (List.mem_cons_self _ _), List.length_cons,
      List.replicate_succ]
    rw [ihm (fun r hr => hall r (List.mem_cons_of_mem _ hr))]

theorem bigState_max_height : getMaxHeight bigState.mempool = some 10 := by
  rw [bigState_mempool]
  cases hm : (List.range 8192).map bigRow with
  | nil =>
    have hlen : ((List.range 8192).map bigRow).length = 0 := by
      rw [hm]
      rfl
    rw [List.length_map, List.length_range] at hlen
    exact absurd hlen (by decide)
  | cons a l =>
    show some (((a :: l).map (·.height)).foldl Nat.max 0) = some 10
    have hall : ∀ r ∈ (a :: l), r.height = 10 := by
      intro r hr
      have hr2 : r ∈ (List.range 8192).map bigRow := hm ▸ hr
      obtain ⟨i, _, rfl⟩ := List.mem_map.mp hr2
      rfl
    rw [map_height_all_eq 10 (a :: l) hall]
    rw [List.length_cons, foldl_max_replicate]
    rfl

theorem getNumRecentTxs_eq (rows : List TxRow) (m : Nat)
    (hm : getMaxHeight rows = some m) :
    getNumRecentTxs rows = (rows.filter (fun r =>
      decide (m - BLOOM_COUNTER_DEPTH < r.height) &&
        decide (r.height ≤ m))).length := by
  unfold getNumRecentTxs
  rw [hm]

theorem getBloomTxids_eq (s : MemPoolState) (m : Nat)
    (hm : getMaxHeight s.mempool = some m) :
    getBloomTxids s = (s.mempool.filter (fun r =>
      decide (m - BLOOM_COUNTER_DEPTH < r.height) &&
        decide (r.height ≤ m) && !(s.removed.contains r.txid))).map
      (·.txid) := by
  unfold getBloomTxids
  rw [hm]

theorem bigState_num_recent : getNumRecentTxs bigState.mempool = 8192 := by
  rw [getNumRecentTxs_eq bigState.mempool 10 bigState_max_height]
  rw [bigState_mempool]
  have hfilter : ((List.range 8192).map bigRow).filter (fun r =>
      decide (10 - BLOOM_COUNTER_DEPTH < r.height) && decide (r.height ≤ 10))
      = (List.range 8192).map bigRow := by
    rw [List.filter_eq_self]
    intro r hr
    obtain ⟨i, _, rfl⟩ := List.mem_map.mp hr
    rfl
  rw [hfilter, List.length_map, List.length_range]

theorem bigState_bloom_txids :
    (getBloomTxids bigState).length = 8192 := by
  rw [getBloomTxids_eq bigState 10 bigState_max_height]
  rw [bigState_removed, bigState_mempool]
  have hfilter : ((List.range 8192).map bigRow).filter (fun r =>
      decide (10 - BLOOM_COUNTER_DEPTH < r.height) &&
        decide (r.height ≤ 10) && !(([] : List Nat).contains r.txid))
      = (List.range 8192).map bigRow := by
    rw [List.filter_eq_self]
    intro r hr
    obtain ⟨i, _, rfl⟩ := List.mem_map.mp hr
    rfl
  rw [hfilter, List.length_map, List.length_map, List.length_range]

theorem bigState_ubcPruned : ubcPruned bigState 20 = bigState := by
  rw [ubcPruned_eq_prune bigState 20
    (fun r hr => by rw [bigState_heights r hr]; omega) (by decide)]
  rw [pruneBloomCounter_eq]
  have htargets : pruneTargets bigState (20 - BLOOM_COUNTER_DEPTH) = [] := by
    unfold pruneTargets
    have hnil : bigState.mempool.filter (fun r =>
        r.height == 20 - BLOOM_COUNTER_DEPTH &&
          !(bigState.removed.contains r.txid)) = [] := by
      rw [List.filter_eq_nil_iff]
      intro r hr
      intro hcontra
      rw [Bool.and_eq_true] at hcontra
      have hrh := beq_iff_eq.mp hcontra.1
      rw [bigState_heights r hr] at hrh
      exact absurd hrh (by decide)
    rw [hnil]
    rfl
  rw [htargets]
  rw [List.foldl_nil, List.foldl_nil]

theorem bigState_evict_none :
    evictCandidate bigState.mempool bigState.removed 20 = none := by
  unfold evictCandidate
  have hnil : bigState.mempool.filter (fun r =>
      decide (20 - BLOOM_COUNTER_DEPTH < r.height) &&
        !(bigState.removed.contains r.txid)) = [] := by
    rw [List.filter_eq_nil_iff]
    intro r hr
    intro hcontra
    rw [Bool.and_eq_true] at hcontra
    have hrh := of_decide_eq_true hcontra.1
    rw [bigState_heights r hr] at hrh
    exact absurd hrh (by decide)
  rw [hnil]
  rfl

theorem tryAddState_removed_eq (ph : Nat → Nat → Nat) (s : MemPoolState)
    (tip : BlockId) (txid tx_fee height oa onon sa sn len now : Nat)
    (prior : Option TxRow) :
    (tryAddState ph s tip txid tx_fee height oa onon sa sn len now
      prior).removed =
    (insertOrReplaceMempool
      (updateBloomCounter s height txid (prior.map (·.txid))).1
      (mkRow tip txid tx_fee height oa onon sa sn len now)).removed := rfl

/-- C3 (counterexample): with the store saturated (8192 live recent
non-tombstoned rows, all at height 10) an accepted submission at
height 20 evicts nothing: the eviction query looks for rows above
`20 − 2 = 18`, finds none, returns `none` and tombstones nothing — yet
the claim demands exactly one evictee whenever the count is at least
`N`.  (The recent-row count the code tests also includes tombstoned
rows, unlike the claim's.) -/
theorem update_bloom_counter_saturation_cex :
    MAX_BLOOM_COUNTER_TXS ≤ (getBloomTxids bigState).length ∧
      MAX_BLOOM_COUNTER_TXS ≤ getNumRecentTxs bigState.mempool ∧
      (updateBloomCounter bigState 20 9000000 none).2 = none ∧
      (updateBloomCounter bigState 20 9000000 none).1.removed = [] ∧
      (∃ s', (tryAddTx anc0 ph0 false bigState (0, 1) 9000000 5 20
          900001 0 900002 0 1 0).1 = .ok s' ∧ s'.removed = []) := by
  have hAP : ubcAfterPrior bigState 20 (none : Option Nat) = bigState := by
    unfold ubcAfterPrior
    exact bigState_ubcPruned
  have hev : ubcEvict bigState 20 = (bigState, none) :=
    (ubcEvict_cases bigState 20).2.1 bigState_evict_none
  have hsnd : (updateBloomCounter bigState 20 9000000 none).2 = none := by
    rw [updateBloomCounter_snd, hAP, hev]
  have hrem : (updateBloomCounter bigState 20 9000000 none).1.removed = [] := by
    rw [updateBloomCounter_removed, hAP, hev]
  refine ⟨by rw [bigState_bloom_txids]; decide,
    by rw [bigState_num_recent]; decide, hsnd, hrem, ?_⟩
  have hprior : tryAddPrior bigState.mempool 900001 0 900002 0 = none := by
    unfold tryAddPrior getTxMetadataByAddress
    have h1 : bigState.mempool.find? (fun r =>
        if true then r.origin_address == 900001 && r.origin_nonce == 0
        else r.sponsor_address == 900001 && r.sponsor_nonce == 0) = none := by
      rw [List.find?_eq_none]
      intro r hr
      obtain ⟨ho, hlt, _⟩ := bigState_origins r hr
      simp only [if_true, Bool.and_eq_true, beq_iff_eq, not_and]
      intro hc
      omega
    have h2 : bigState.mempool.find? (fun r =>
        if false then r.origin_address == 900002 && r.origin_nonce == 0
        else r.sponsor_address == 900002 && r.sponsor_nonce == 0) = none := by
      rw [List.find?_eq_none]
      intro r hr
      obtain ⟨_, hlt, hs⟩ := bigState_origins r hr
      simp only [Bool.false_eq_true, if_false, Bool.and_eq_true, beq_iff_eq,
        not_and]
      intro hc
      omega
    rw [h1, h2]
  have hdec : tryAddDecision anc0 (0, 1) 5
      (tryAddPrior bigState.mempool 900001 0 900002 0) =
        some .REPLACE_BY_FEE := by
    rw [hprior]
    rfl
  refine ⟨tryAddState ph0 bigState (0, 1) 9000000 5 20 900001 0 900002 0 1 0
    (tryAddPrior bigState.mempool 900001 0 900002 0), ?_, ?_⟩
  · unfold tryAddTx
    rw [hdec]
  · rw [hprior, tryAddState_removed_eq]
    rw [Option.map_none']
    exact insertOrReplace_removed_nil _ _ hrem

/-! ### C6/C7 — the candidate walker -/

/-- The facts guaranteed for every recorded callback invocation: the
row comes from the table, belongs to the invocation's origin, carries
the account nonce queried for that origin, an admissible fee and an
in-range height. -/
def WalkQ (rows : List TxRow) (min_h max_h : Int) (min_fee : Nat)
    (inv : WalkInv) : Prop :=
  inv.row ∈ rows ∧ inv.row.origin_address = inv.origin ∧
    inv.row.origin_nonce = inv.nonce ∧ min_h < (inv.row.height : Int) ∧
    (inv.row.height : Int) ≤ max_h ∧ min_fee ≤ inv.row.tx_fee

theorem walkRowQuery_some (rows : List TxRow) (a : Nat) (min_h max_h : Int)
    (nonce min_fee : Nat) (row : TxRow)
    (h : walkRowQuery rows a min_h max_h nonce min_fee = some row) :
    row ∈ rows ∧ row.origin_address = a ∧ row.origin_nonce = nonce ∧
      min_h < (row.height : Int) ∧ (row.height : Int) ≤ max_h ∧
      min_fee ≤ row.tx_fee := by
  unfold walkRowQuery minSponsorNonceFirst at h
  have hmem := minByFirst_mem _ _ _ h
  have hpred := List.of_mem_filter hmem
  simp only [Bool.and_eq_true, beq_iff_eq, decide_eq_true_eq] at hpred
  exact ⟨List.mem_of_mem_filter hmem, hpred.1.1.1.1, hpred.1.2,
    hpred.1.1.1.2, hpred.1.1.2, hpred.2⟩

theorem dropLast_cons_cont (x : WalkInv) (l : List WalkInv)
    (hx : x.cont = true) (hl : ∀ y ∈ l.dropLast, y.cont = true) :
    ∀ y ∈ (x :: l).dropLast, y.cont = true := by
  cases l with
  | nil => intro y hy; cases hy
  | cons b m =>
    intro y hy
    rw [List.dropLast_cons₂] at hy
    rcases List.mem_cons.mp hy with rfl | hy
    · exact hx
    · exact hl y hy

theorem walkPage_cons {σ : Type} (dl : Nat → Bool) (acct : σ → Nat → Nat)
    (todo : σ → TxRow → σ × Bool) (rows : List TxRow) (min_h max_h : Int)
    (min_fee : Nat) (a : Nat) (rest : List Nat) (c : σ) (t : Nat)
    (tr : List WalkInv) (cnt : Nat) :
    walkPage dl acct todo rows min_h max_h min_fee (a :: rest) c t tr cnt =
      if dl t then (c, t + 1, tr, cnt)
      else
        match walkRowQuery rows a min_h max_h (acct c a) min_fee with
        | none => walkPage dl acct todo rows min_h max_h min_fee rest c
            (t + 1) tr cnt
        | some row =>
          if (todo c row).2 then
            walkPage dl acct todo rows min_h max_h min_fee rest
              (todo c row).1 (t + 1)
              (tr ++ [⟨a, acct c a, row, (todo c row).2⟩]) (cnt + 1)
          else ((todo c row).1, t + 1,
            tr ++ [⟨a, acct c a, row, (todo c row).2⟩], cnt + 1) := rfl

theorem walkPage_spec {σ : Type} (dl : Nat → Bool) (acct : σ → Nat → Nat)
    (todo : σ → TxRow → σ × Bool) (rows : List TxRow) (min_h max_h : Int)
    (min_fee : Nat) :
    ∀ (P : List Nat) (c : σ) (t : Nat) (tr : List WalkInv) (cnt : Nat),
      ∃ nw : List WalkInv,
        (walkPage dl acct todo rows min_h max_h min_fee P c t tr cnt).2.2.1 =
          tr ++ nw ∧
        (walkPage dl acct todo rows min_h max_h min_fee P c t tr cnt).2.2.2 =
          cnt + nw.length ∧
        List.Sublist (nw.map (·.origin)) P ∧
        (∀ inv ∈ nw, WalkQ rows min_h max_h min_fee inv) ∧
        (∀ inv ∈ nw.dropLast, inv.cont = true) := by
  intro P
  induction P with
  | nil =>
    intro c t tr cnt
    refine ⟨[], ?_, ?_, List.nil_sublist _, ?_, ?_⟩
    · simp [walkPage]
    · simp [walkPage]
    · intro inv h
      cases h
    · intro inv h
      cases h
  | cons a rest ih =>
    intro c t tr cnt
    by_cases hdl : dl t = true
    · have hstep : walkPage dl acct todo rows min_h max_h min_fee
          (a :: rest) c t tr cnt = (c, t + 1, tr, cnt) := by
        unfold walkPage
        rw [if_pos hdl]
      refine ⟨[], ?_, ?_, List.nil_sublist _, ?_, ?_⟩
      · rw [hstep]
        simp
      · rw [hstep]
        simp
      · intro inv h
        cases h
      · intro inv h
        cases h
    · cases hq : walkRowQuery rows a min_h max_h (acct c a) min_fee with
      | none =>
        have hstep : walkPage dl acct todo rows min_h max_h min_fee
            (a :: rest) c t tr cnt =
            walkPage dl acct todo rows min_h max_h min_fee rest c (t + 1)
              tr cnt := by
          rw [walkPage_cons, if_neg hdl, hq]
        obtain ⟨nw, h1, h2, hsub, hQ, hlast⟩ := ih c (t + 1) tr cnt
        refine ⟨nw, ?_, ?_, List.Sublist.cons a hsub, hQ, hlast⟩
        · rw [hstep]
          exact h1
        · rw [hstep]
          exact h2
      | some row =>
        obtain ⟨hmem, hoa, hon, hh1, hh2, hf⟩ :=
          walkRowQuery_some rows a min_h max_h (acct c a) min_fee row hq
        cases hres : (todo c row).2 with
        | true =>
          have hstep : walkPage dl acct todo rows min_h max_h min_fee
              (a :: rest) c t tr cnt =
              walkPage dl acct todo rows min_h max_h min_fee rest
                (todo c row).1 (t + 1)
                (tr ++ [⟨a, acct c a, row, true⟩]) (cnt + 1) := by
            rw [walkPage_cons, if_neg hdl, hq]
            simp only [hres]
            rw [if_pos trivial]
          obtain ⟨nw, h1, h2, hsub, hQ, hlast⟩ := ih (todo c row).1 (t + 1)
            (tr ++ [⟨a, acct c a, row, true⟩]) (cnt + 1)
          refine ⟨⟨a, acct c a, row, true⟩ :: nw, ?_, ?_, ?_, ?_, ?_⟩
          · rw [hstep, h1, List.append_assoc]
            rfl
          · rw [hstep, h2, List.length_cons]
            omega
          · exact List.Sublist.cons₂ a hsub
          · intro inv hinv
            rcases List.mem_cons.mp hinv with rfl | hinv
            · exact ⟨hmem, hoa, hon, hh1, hh2, hf⟩
            · exact hQ inv hinv
          · exact dropLast_cons_cont _ nw rfl hlast
        | false =>
          have hstep : walkPage dl acct todo rows min_h max_h min_fee
              (a :: rest) c t tr cnt =
              ((todo c row).1, t + 1, tr ++ [⟨a, acct c a, row, false⟩],
                cnt + 1) := by
            rw [walkPage_cons, if_neg hdl, hq]
            simp only [hres]
            rw [if_neg (by simp)]
          refine ⟨[⟨a, acct c a, row, false⟩], ?_, ?_, ?_, ?_, ?_⟩
          · rw [hstep]
          · rw [hstep]
            rfl
          · simp
          · intro inv hinv
            rcases List.mem_singleton.mp hinv with rfl
            exact ⟨hmem, hoa, hon, hh1, hh2, hf⟩
          · intro inv hinv
            cases hinv

theorem walkOuter_succ {σ : Type} (dl : Nat → Bool) (acct : σ → Nat → Nat)
    (todo : σ → TxRow → σ × Bool) (rows : List TxRow) (min_h max_h : Int)
    (min_fee : Nat) (fuel offset : Nat) (c : σ) (t : Nat)
    (tr : List WalkInv) (cnt : Nat) :
    walkOuter dl acct todo rows min_h max_h min_fee (fuel + 1) offset c t
        tr cnt =
      if dl t then (c, tr, cnt)
      else
        if (findOriginAddressesByDescendingFees rows min_h max_h min_fee
            (offset * 1000) 1000).isEmpty then (c, tr, cnt)
        else
          walkOuter dl acct todo rows min_h max_h min_fee fuel (offset + 1)
            (walkPage dl acct todo rows min_h max_h min_fee
              (findOriginAddressesByDescendingFees rows min_h max_h min_fee
                (offset * 1000) 1000) c (t + 1) tr cnt).1
            (walkPage dl acct todo rows min_h max_h min_fee
              (findOriginAddressesByDescendingFees rows min_h max_h min_fee
                (offset * 1000) 1000) c (t + 1) tr cnt).2.1
            (walkPage dl acct todo rows min_h max_h min_fee
              (findOriginAddressesByDescendingFees rows min_h max_h min_fee
                (offset * 1000) 1000) c (t + 1) tr cnt).2.2.1
            (walkPage dl acct todo rows min_h max_h min_fee
              (findOriginAddressesByDescendingFees rows min_h max_h min_fee
                (offset * 1000) 1000) c (t + 1) tr cnt).2.2.2 := rfl

theorem walkOuter_spec {σ : Type} (dl : Nat → Bool) (acct : σ → Nat → Nat)
    (todo : σ → TxRow → σ × Bool) (rows : List TxRow) (min_h max_h : Int)
    (min_fee : Nat) :
    ∀ (fuel offset : Nat) (c : σ) (t : Nat) (tr : List WalkInv) (cnt : Nat),
      ∃ nw : List WalkInv,
        (walkOuter dl acct todo rows min_h max_h min_fee fuel offset c t
          tr cnt).2.1 = tr ++ nw ∧
        (walkOuter dl acct todo rows min_h max_h min_fee fuel offset c t
          tr cnt).2.2 = cnt + nw.length ∧
        List.Sublist (nw.map (·.origin))
          ((originAddrsByDescFees rows min_h max_h min_fee).drop
            (offset * 1000)) ∧
        (∀ inv ∈ nw, WalkQ rows min_h max_h min_fee inv) := by
  intro fuel
  induction fuel with
  | zero =>
    intro offset c t tr cnt
    refine ⟨[], ?_, ?_, List.nil_sublist _, ?_⟩
    · simp [walkOuter]
    · simp [walkOuter]
    · intro inv h
      cases h
  | succ fuel ih =>
    intro offset c t tr cnt
    by_cases hdl : dl t = true
    · have hstep : walkOuter dl acct todo rows min_h max_h min_fee
          (fuel + 1) offset c t tr cnt = (c, tr, cnt) := by
        unfold walkOuter
        rw [if_pos hdl]
      refine ⟨[], ?_, ?_, List.nil_sublist _, ?_⟩
      · rw [hstep]
        simp
      · rw [hstep]
        simp
      · intro inv h
        cases h
    · by_cases hpage : (findOriginAddressesByDescendingFees rows min_h max_h
          min_fee (offset * 1000) 1000).isEmpty = true
      · have hstep : walkOuter dl acct todo rows min_h max_h min_fee
            (fuel + 1) offset c t tr cnt = (c, tr, cnt) := by
          unfold walkOuter
          rw [if_neg hdl, if_pos hpage]
        refine ⟨[], ?_, ?_, List.nil_sublist _, ?_⟩
        · rw [hstep]
          simp
        · rw [hstep]
          simp
        · intro inv h
          cases h
      · have hstep : walkOuter dl acct todo rows min_h max_h min_fee
            (fuel + 1) offset c t tr cnt =
            walkOuter dl acct todo rows min_h max_h min_fee fuel (offset + 1)
              (walkPage dl acct todo rows min_h max_h min_fee
                (findOriginAddressesByDescendingFees rows min_h max_h min_fee
                  (offset * 1000) 1000) c (t + 1) tr cnt).1
              (walkPage dl acct todo rows min_h max_h min_fee
                (findOriginAddressesByDescendingFees rows min_h max_h min_fee
                  (offset * 1000) 1000) c (t + 1) tr cnt).2.1
              (walkPage dl acct todo rows min_h max_h min_fee
                (findOriginAddressesByDescendingFees rows min_h max_h min_fee
                  (offset * 1000) 1000) c (t + 1) tr cnt).2.2.1
              (walkPage dl acct todo rows min_h max_h min_fee
                (findOriginAddressesByDescendingFees rows min_h max_h min_fee
                  (offset * 1000) 1000) c (t + 1) tr cnt).2.2.2 := by
          rw [walkOuter_succ, if_neg hdl, if_neg hpage]
        obtain ⟨nw1, hp1, hp2, hpsub, hpQ, _⟩ := walkPage_spec dl acct todo
          rows min_h max_h min_fee
          (findOriginAddressesByDescendingFees rows min_h max_h min_fee
            (offset * 1000) 1000) c (t + 1) tr cnt
        obtain ⟨nw2, ho1, ho2, hosub, hoQ⟩ := ih (offset + 1)
          (walkPage dl acct todo rows min_h max_h min_fee
            (findOriginAddressesByDescendingFees rows min_h max_h min_fee
              (offset * 1000) 1000) c (t + 1) tr cnt).1
          (walkPage dl acct todo rows min_h max_h min_fee
            (findOriginAddressesByDescendingFees rows min_h max_h min_fee
              (offset * 1000) 1000) c (t + 1) tr cnt).2.1
          (walkPage dl acct todo rows min_h max_h min_fee
            (findOriginAddressesByDescendingFees rows min_h max_h min_fee
              (offset * 1000) 1000) c (t + 1) tr cnt).2.2.1
          (walkPage dl acct todo rows min_h max_h min_fee
            (findOriginAddressesByDescendingFees rows min_h max_h min_fee
              (offset * 1000) 1000) c (t + 1) tr cnt).2.2.2
        refine ⟨nw1 ++ nw2, ?_, ?_, ?_, ?_⟩
        · rw [hstep, ho1, hp1, List.append_assoc]
        · rw [hstep, ho2, hp2, List.length_append]
          omega
        · rw [List.map_append]
          have hdecomp : (originAddrsByDescFees rows min_h max_h
              min_fee).drop (offset * 1000) =
              ((originAddrsByDescFees rows min_h max_h min_fee).drop
                (offset * 1000)).take 1000 ++
              (originAddrsByDescFees rows min_h max_h min_fee).drop
                ((offset + 1) * 1000) := by
            have h1000 : (offset + 1) * 1000 = offset * 1000 + 1000 := by ring
            rw [h1000, ← List.drop_drop]
            rw [List.take_append_drop]
          rw [hdecomp]
          exact List.Sublist.append hpsub hosub
        · intro inv hinv
          rcases List.mem_append.mp hinv with hinv | hinv
          · exact hpQ inv hinv
          · exact hoQ inv hinv

/-- C6: during one pass of `iterate_candidates` the callback is
invoked at most once per distinct origin address; each invocation's
row lies in the table with the invocation's origin address, the origin
nonce the chainstate reported for that origin at query time, a fee at
or above `settings.min_tx_fee`, and a height inside the eligible range
`(tip − MAX_AGE − 1, tip]`; and the returned count equals the number
of callback invocations. -/
theorem iterate_candidates_contract {σ : Type} (dl : Nat → Bool)
    (acct : σ → Nat → Nat) (todo : σ → TxRow → σ × Bool) (s : MemPoolState)
    (tip_height min_fee : Nat) (c0 : σ) :
    ((iterateCandidates dl acct todo s tip_height min_fee c0).2.1.map
      (·.origin)).Nodup ∧
    (iterateCandidates dl acct todo s tip_height min_fee c0).2.2 =
      (iterateCandidates dl acct todo s tip_height min_fee c0).2.1.length ∧
    ∀ inv ∈ (iterateCandidates dl acct todo s tip_height min_fee c0).2.1,
      WalkQ s.mempool
        ((i64CheckedSub (u64AsI64 tip_height)
          ((MEMPOOL_MAX_TRANSACTION_AGE : Int) + 1)).getD (-1))
        (u64AsI64 tip_height) min_fee inv := by
  obtain ⟨nw, h1, h2, hsub, hQ⟩ := walkOuter_spec dl acct todo s.mempool
    ((i64CheckedSub (u64AsI64 tip_height)
      ((MEMPOOL_MAX_TRANSACTION_AGE : Int) + 1)).getD (-1))
    (u64AsI64 tip_height) min_fee
    ((originAddrsByDescFees s.mempool
      ((i64CheckedSub (u64AsI64 tip_height)
        ((MEMPOOL_MAX_TRANSACTION_AGE : Int) + 1)).getD (-1))
      (u64AsI64 tip_height) min_fee).length + 2) 0 c0 0 [] 0
  have htr : (iterateCandidates dl acct todo s tip_height min_fee c0).2.1 =
      nw := by
    show (walkOuter dl acct todo s.mempool _ _ min_fee _ 0 c0 0 [] 0).2.1 = nw
    rw [h1]
    rfl
  have hcnt : (iterateCandidates dl acct todo s tip_height min_fee c0).2.2 =
      nw.length := by
    show (walkOuter dl acct todo s.mempool _ _ min_fee _ 0 c0 0 [] 0).2.2 =
      nw.length
    rw [h2, Nat.zero_add]
  refine ⟨?_, ?_, ?_⟩
  · rw [htr]
    have hL : ((originAddrsByDescFees s.mempool
        ((i64CheckedSub (u64AsI64 tip_height)
          ((MEMPOOL_MAX_TRANSACTION_AGE : Int) + 1)).getD (-1))
        (u64AsI64 tip_height) min_fee).drop (0 * 1000)) =
        originAddrsByDescFees s.mempool
          ((i64CheckedSub (u64AsI64 tip_height)
            ((MEMPOOL_MAX_TRANSACTION_AGE : Int) + 1)).getD (-1))
          (u64AsI64 tip_height) min_fee := by
      rw [Nat.zero_mul, List.drop_zero]
    rw [hL] at hsub
    exact List.Nodup.sublist hsub (dedupFirstAux_nodup _ []).1
  · rw [htr, hcnt]
  · rw [htr]
    exact hQ

/-! ### The stop answer and the outer page loop -/

/-- A mempool row whose txid, origin address and sponsor address are
all `i`, with nonce 0, fee 5, height 1, at tip `(0, 1)`. -/
def wRow (i : Nat) : TxRow :=
  { txid := i, origin_address := i, origin_nonce := 0, sponsor_address := i,
    sponsor_nonce := 0, tx_fee := 5, length := 1, consensus_hash := 0,
    block_header_hash := 1, height := 1, accept_time := 0 }

/-- 1001 rows with 1001 distinct origin addresses: one more origin
than a single 1000-address page of the walker can hold. -/
def wRows : List TxRow := (List.range 1001).map wRow

/-- A mempool state whose table holds the 1001 rows of `wRows`. -/
def wState : MemPoolState :=
  { mempool := wRows, removed := [], randomized := [], bloom := [],
    seed := 0 }

theorem insertFeeDesc_const (r : TxRow) (l : List TxRow)
    (h : ∀ b ∈ l, b.tx_fee = r.tx_fee) : insertFeeDesc r l = r :: l := by
  cases l with
  | nil => rfl
  | cons b rest =>
    show (if b.tx_fee ≤ r.tx_fee then r :: b :: rest
      else b :: insertFeeDesc r rest) = r :: b :: rest
    rw [if_pos (le_of_eq (h b (List.mem_cons_self _ _)))]

theorem sortFeeDesc_const (l : List TxRow) (f : Nat)
    (h : ∀ b ∈ l, b.tx_fee = f) : sortFeeDesc l = l := by
  induction l with
  | nil => rfl
  | cons r rest ih =>
    show insertFeeDesc r (sortFeeDesc rest) = r :: rest
    rw [ih (fun b hb => h b (List.mem_cons_of_mem _ hb))]
    exact insertFeeDesc_const r rest (fun b hb => by
      rw [h b (List.mem_cons_of_mem _ hb), h r (List.mem_cons_self _ _)])

theorem dedupFirstAux_of_nodup :
    ∀ (l seen : List Nat), l.Nodup → (∀ a ∈ l, a ∉ seen) →
      dedupFirstAux l seen = l := by
  intro l
  induction l with
  | nil => intro seen _ _; rfl
  | cons a rest ih =>
    intro seen hnd hd
    have hna : a ∉ rest := (List.nodup_cons.mp hnd).1
    show (if seen.contains a then dedupFirstAux rest seen
      else a :: dedupFirstAux rest (a :: seen)) = a :: rest
    rw [if_neg (fun hx =>
      hd a (List.mem_cons_self _ _) ((contains_true_iff _ _).mp hx))]
    rw [ih (a :: seen) (List.nodup_cons.mp hnd).2 (fun b hb hmem => by
      rcases List.mem_cons.mp hmem with rfl | hmem
      · exact hna hb
      · exact hd b (List.mem_cons_of_mem _ hb) hmem)]

theorem filter_beq_range (a : Nat) : ∀ n, a < n →
    (List.range n).filter (fun i => i == a) = [a] := by
  intro n
  induction n with
  | zero => intro h; exact absurd h (Nat.not_lt_zero a)
  | succ n ih =>
    intro h
    rw [List.range_succ, List.filter_append]
    rcases Nat.lt_or_ge a n with h1 | h1
    · rw [ih h1, List.filter_singleton]
      have hne : (n == a) = false := by
        simp only [beq_eq_false_iff_ne]
        omega
      rw [hne]
      simp
    · have ha : a = n := by omega
      subst ha
      have h0 : (List.range a).filter (fun i => i == a) = [] := by
        rw [List.filter_eq_nil_iff]
        intro b hb
        simp only [beq_iff_eq]
        have := List.mem_range.mp hb
        omega
      rw [h0, List.nil_append, List.filter_singleton]
      simp

theorem walkPage_stop {σ : Type} (dl : Nat → Bool) (acct : σ → Nat → Nat)
    (todo : σ → TxRow → σ × Bool) (rows : List TxRow) (min_h max_h : Int)
    (min_fee : Nat) (a : Nat) (rest : List Nat) (c : σ) (t : Nat)
    (tr : List WalkInv) (cnt : Nat) (row : TxRow)
    (hdl : dl t = false)
    (hq : walkRowQuery rows a min_h max_h (acct c a) min_fee = some row)
    (hres : (todo c row).2 = false) :
    walkPage dl acct todo rows min_h max_h min_fee (a :: rest) c t tr cnt =
      ((todo c row).1, t + 1, tr ++ [⟨a, acct c a, row, false⟩], cnt + 1) := by
  rw [walkPage_cons, hdl, if_neg (by simp), hq]
  simp only [hres]
  rw [if_neg (by simp)]

theorem wRows_fee : ∀ b ∈ wRows, b.tx_fee = 5 := by
  intro b hb
  obtain ⟨i, _, rfl⟩ := List.mem_map.mp hb
  rfl

theorem wEligible : walkEligible wRows (-256) 1 1 = wRows := by
  apply List.filter_eq_self.mpr
  intro b hb
  obtain ⟨i, _, rfl⟩ := List.mem_map.mp hb
  rfl

theorem wMap : wRows.map (·.origin_address) = List.range 1001 := by
  unfold wRows
  rw [List.map_map]
  have hc : ((fun r : TxRow => r.origin_address) ∘ wRow) =
      fun i : Nat => i := funext (fun i => rfl)
  rw [hc]
  simp

theorem wOA : originAddrsByDescFees wRows (-256) 1 1 = List.range 1001 := by
  unfold originAddrsByDescFees
  rw [wEligible, sortFeeDesc_const wRows 5 wRows_fee, wMap]
  exact dedupFirstAux_of_nodup _ _ (List.nodup_range _)
    (fun a _ => List.not_mem_nil a)

theorem wQuery (a : Nat) (ha : a < 1001) :
    walkRowQuery wRows a (-256) 1 0 1 = some (wRow a) := by
  unfold walkRowQuery wRows
  rw [List.filter_map]
  have hc : ∀ i ∈ List.range 1001,
      ((fun r : TxRow =>
        r.origin_address == a && decide ((-256 : Int) < (r.height : Int)) &&
        decide ((r.height : Int) ≤ (1 : Int)) &&
        r.origin_nonce == (0 : Nat) &&
        decide ((1 : Nat) ≤ r.tx_fee)) ∘ wRow) i =
      (fun i : Nat => i == a) i := by
    intro i _
    simp [wRow]
  rw [List.filter_congr hc, filter_beq_range a 1001 ha]
  rfl

/-- C7 (amended): the stop answer only breaks the inner per-page loop
of `iterate_candidates`; when the distinct eligible origin addresses
fit in a single 1000-address page, a pass makes no further callback
invocation after a stop — every invocation except possibly the last
answered continue. -/
theorem iterate_candidates_stop {σ : Type} (dl : Nat → Bool)
    (acct : σ → Nat → Nat) (todo : σ → TxRow → σ × Bool) (s : MemPoolState)
    (tip_height min_fee : Nat) (c0 : σ)
    (h : (originAddrsByDescFees s.mempool
        ((i64CheckedSub (u64AsI64 tip_height)
          ((MEMPOOL_MAX_TRANSACTION_AGE : Int) + 1)).getD (-1))
        (u64AsI64 tip_height) min_fee).length ≤ 1000) :
    ∀ inv ∈ (iterateCandidates dl acct todo s tip_height min_fee
        c0).2.1.dropLast, inv.cont = true := by
  set mh := (i64CheckedSub (u64AsI64 tip_height)
    ((MEMPOOL_MAX_TRANSACTION_AGE : Int) + 1)).getD (-1) with hmh
  set mx := u64AsI64 tip_height with hmx
  have hfuel : (originAddrsByDescFees s.mempool mh mx min_fee).length + 2 =
      ((originAddrsByDescFees s.mempool mh mx min_fee).length + 1) + 1 := rfl
  by_cases hdl0 : dl 0 = true
  · have hE : (iterateCandidates dl acct todo s tip_height min_fee
        c0).2.1 = ([] : List WalkInv) := by
      show (walkOuter dl acct todo s.mempool mh mx min_fee
        ((originAddrsByDescFees s.mempool mh mx min_fee).length + 2)
        0 c0 0 [] 0).2.1 = []
      rw [hfuel, walkOuter_succ, if_pos hdl0]
    rw [hE]
    intro inv hinv
    simp at hinv
  · by_cases hp0 : (findOriginAddressesByDescendingFees s.mempool mh mx
        min_fee (0 * 1000) 1000).isEmpty = true
    · have hE : (iterateCandidates dl acct todo s tip_height min_fee
          c0).2.1 = ([] : List WalkInv) := by
        show (walkOuter dl acct todo s.mempool mh mx min_fee
          ((originAddrsByDescFees s.mempool mh mx min_fee).length + 2)
          0 c0 0 [] 0).2.1 = []
        rw [hfuel, walkOuter_succ, if_neg hdl0, if_pos hp0]
      rw [hE]
      intro inv hinv
      simp at hinv
    · have hpage0 : findOriginAddressesByDescendingFees s.mempool mh mx
          min_fee (0 * 1000) 1000 =
          originAddrsByDescFees s.mempool mh mx min_fee := by
        unfold findOriginAddressesByDescendingFees
        rw [show (0 * 1000 : Nat) = 0 from rfl, List.drop_zero,
          List.take_of_length_le h]
      have hpage1 : findOriginAddressesByDescendingFees s.mempool mh mx
          min_fee ((0 + 1) * 1000) 1000 = [] := by
        unfold findOriginAddressesByDescendingFees
        rw [show ((0 + 1) * 1000 : Nat) = 1000 from rfl,
          List.drop_eq_nil_of_le h, List.take_nil]
      obtain ⟨nw, hp1, hp2, hpsub, hpQ, hplast⟩ := walkPage_spec dl acct
        todo s.mempool mh mx min_fee
        (originAddrsByDescFees s.mempool mh mx min_fee) c0 (0 + 1) [] 0
      have hT : (iterateCandidates dl acct todo s tip_height min_fee
          c0).2.1 = nw := by
        show (walkOuter dl acct todo s.mempool mh mx min_fee
          ((originAddrsByDescFees s.mempool mh mx min_fee).length + 2)
          0 c0 0 [] 0).2.1 = nw
        rw [hfuel, walkOuter_succ, if_neg hdl0, if_neg hp0, hpage0,
          walkOuter_succ, hpage1]
        simp only [List.isEmpty_nil]
        rw [if_pos trivial, ite_self, hp1, List.nil_append]
      rw [hT]
      exact hplast

/-- Witness for the amended C7 theorem at the empty mempool. -/
theorem iterate_candidates_stop_witness :
    (originAddrsByDescFees (initState 0).mempool
        ((i64CheckedSub (u64AsI64 1)
          ((MEMPOOL_MAX_TRANSACTION_AGE : Int) + 1)).getD (-1))
        (u64AsI64 1) 0).length ≤ 1000 ∧
    ∀ inv ∈ (iterateCandidates (fun _ => false) (fun (_ : Unit) _ => 0)
        (fun c _ => (c, false)) (initState 0) 1 0 ()).2.1.dropLast,
      inv.cont = true :=
  ⟨by decide, iterate_candidates_stop (fun _ => false)
    (fun (_ : Unit) _ => 0) (fun c _ => (c, false)) (initState 0) 1 0 ()
    (by decide)⟩

set_option maxRecDepth 8000 in
/-- C7 counterexample: with 1001 distinct eligible origin addresses
the walker's stop answer only exits the current 1000-address page; the
outer loop then fetches the next page and the callback — which
answered stop at its very first invocation — is invoked again on
origin 1000, and the returned count is 2, not 1. -/
theorem iterate_candidates_stop_cex :
    (iterateCandidates (fun _ => false) (fun (_ : Unit) _ => 0)
        (fun c _ => (c, false)) wState 1 1 ()).2.1 =
      [⟨0, 0, wRow 0, false⟩, ⟨1000, 0, wRow 1000, false⟩] ∧
    (iterateCandidates (fun _ => false) (fun (_ : Unit) _ => 0)
        (fun c _ => (c, false)) wState 1 1 ()).2.2 = 2 := by
  have hmin : (i64CheckedSub (u64AsI64 1)
      ((MEMPOOL_MAX_TRANSACTION_AGE : Int) + 1)).getD (-1) = -256 := by
    decide
  have hmax : u64AsI64 1 = 1 := by decide
  have hp0 : findOriginAddressesByDescendingFees wRows (-256) 1 1
      (0 * 1000) 1000 = List.range 1000 := by
    unfold findOriginAddressesByDescendingFees
    rw [wOA, show (0 * 1000 : Nat) = 0 from rfl, List.drop_zero,
      show (1001 : Nat) = 1000 + 1 from rfl, List.range_succ,
      List.take_left' (List.length_range 1000)]
  have hp1 : findOriginAddressesByDescendingFees wRows (-256) 1 1
      (1 * 1000) 1000 = [1000] := by
    unfold findOriginAddressesByDescendingFees
    rw [wOA, show (1 * 1000 : Nat) = 1000 from rfl,
      show (1001 : Nat) = 1000 + 1 from rfl, List.range_succ,
      List.drop_left' (List.length_range 1000)]
    exact List.take_of_length_le (by simp)
  have hp2 : findOriginAddressesByDescendingFees wRows (-256) 1 1
      (2 * 1000) 1000 = [] := by
    unfold findOriginAddressesByDescendingFees
    rw [wOA, List.drop_eq_nil_of_le (by simp), List.take_nil]
  have hw0 : walkPage (fun _ => false) (fun (_ : Unit) _ => 0)
      (fun c _ => (c, false)) wRows (-256) 1 1 (List.range 1000) () 1
      [] 0 = ((), 2, [] ++ [⟨0, 0, wRow 0, false⟩], 0 + 1) := by
    rw [show (1000 : Nat) = 999 + 1 from rfl, List.range_succ_eq_map]
    exact walkPage_stop (fun _ => false) (fun (_ : Unit) _ => 0)
      (fun c _ => (c, false)) wRows (-256) 1 1 0
      (List.map Nat.succ (List.range 999)) () 1 [] 0 (wRow 0) rfl
      (wQuery 0 (by omega)) rfl
  have hw1 : walkPage (fun _ => false) (fun (_ : Unit) _ => 0)
      (fun c _ => (c, false)) wRows (-256) 1 1 [1000] () 3
      [⟨0, 0, wRow 0, false⟩] 1 =
      ((), 4, [⟨0, 0, wRow 0, false⟩] ++ [⟨1000, 0, wRow 1000, false⟩],
        1 + 1) := by
    exact walkPage_stop (fun _ => false) (fun (_ : Unit) _ => 0)
      (fun c _ => (c, false)) wRows (-256) 1 1 1000 [] () 3
      [⟨0, 0, wRow 0, false⟩] 1 (wRow 1000) rfl
      (wQuery 1000 (by omega)) rfl
  have hmain : walkOuter (fun _ => false) (fun (_ : Unit) _ => 0)
      (fun c _ => (c, false)) wRows (-256) 1 1
      ((originAddrsByDescFees wRows (-256) 1 1).length + 2) 0 () 0 [] 0 =
      ((), [⟨0, 0, wRow 0, false⟩, ⟨1000, 0, wRow 1000, false⟩], 2) := by
    rw [wOA, List.length_range,
      show (1001 + 2 : Nat) = 1002 + 1 from rfl, walkOuter_succ,
      if_neg (by simp), hp0, if_neg (by simp [List.range_eq_nil]), hw0]
    show walkOuter (fun _ => false) (fun (_ : Unit) _ => 0)
      (fun c _ => (c, false)) wRows (-256) 1 1 1002 1 () 2
      [⟨0, 0, wRow 0, false⟩] 1 =
      ((), [⟨0, 0, wRow 0, false⟩, ⟨1000, 0, wRow 1000, false⟩], 2)
    rw [show (1002 : Nat) = 1001 + 1 from rfl, walkOuter_succ,
      if_neg (by simp), hp1, if_neg (by simp), hw1]
    show walkOuter (fun _ => false) (fun (_ : Unit) _ => 0)
      (fun c _ => (c, false)) wRows (-256) 1 1 1001 2 () 4
      [⟨0, 0, wRow 0, false⟩, ⟨1000, 0, wRow 1000, false⟩] 2 =
      ((), [⟨0, 0, wRow 0, false⟩, ⟨1000, 0, wRow 1000, false⟩], 2)
    rw [show (1001 : Nat) = 1000 + 1 from rfl, walkOuter_succ,
      if_neg (by simp), hp2]
    rw [if_pos List.isEmpty_nil]
  have hIC : iterateCandidates (fun _ => false) (fun (_ : Unit) _ => 0)
      (fun c _ => (c, false)) wState 1 1 () =
      ((), [⟨0, 0, wRow 0, false⟩, ⟨1000, 0, wRow 1000, false⟩], 2) := by
    show walkOuter (fun _ => false) (fun (_ : Unit) _ => 0)
      (fun c _ => (c, false)) wState.mempool _ _ 1 _ 0 () 0 [] 0 =
      ((), [⟨0, 0, wRow 0, false⟩, ⟨1000, 0, wRow 1000, false⟩], 2)
    rw [show wState.mempool = wRows from rfl, hmin, hmax, hmain]
  exact ⟨by rw [hIC], by rw [hIC]⟩

/-! ### The reconciliation query -/

theorem foldl_max_init_le : ∀ (l : List Nat) (a : Nat),
    a ≤ l.foldl Nat.max a := by
  intro l
  induction l with
  | nil => intro a; exact le_refl a
  | cons b rest ih =>
    intro a
    exact le_trans (Nat.le_max_left a b) (ih (Nat.max a b))

theorem mem_le_foldl_max : ∀ (l : List Nat) (a x : Nat), x ∈ l →
    x ≤ l.foldl Nat.max a := by
  intro l
  induction l with
  | nil => intro a x hx; cases hx
  | cons b rest ih =>
    intro a x hx
    show x ≤ rest.foldl Nat.max (Nat.max a b)
    rcases List.mem_cons.mp hx with rfl | hx
    · exact le_trans (Nat.le_max_right a x) (foldl_max_init_le rest _)
    · exact ih _ x hx

theorem getMaxHeight_le (rows : List TxRow) (m : Nat)
    (h : getMaxHeight rows = some m) : ∀ r ∈ rows, r.height ≤ m := by
  intro r hr
  cases rows with
  | nil => cases hr
  | cons b rest =>
    have hm : ((b :: rest).map (·.height)).foldl Nat.max 0 = m :=
      Option.some.inj h
    rw [← hm]
    exact mem_le_foldl_max _ 0 _ (List.mem_map_of_mem _ hr)

theorem mem_recentJoinRows (s : MemPoolState) (height cursor : Nat)
    (x : TxRow × Nat) (hx : x ∈ recentJoinRows s height cursor) :
    x.1 ∈ s.mempool ∧ lookupPager s x.1.txid = some x.2 ∧ cursor < x.2 ∧
      height - BLOOM_COUNTER_DEPTH < x.1.height ∧
      s.removed.contains x.1.txid = false := by
  unfold recentJoinRows at hx
  have hx' := (sortHashedAsc_perm _).mem_iff.mp hx
  obtain ⟨r, hr, hf⟩ := List.mem_filterMap.mp hx'
  cases hp : lookupPager s r.txid with
  | none =>
    rw [hp] at hf
    cases hf
  | some hv =>
    simp only [hp] at hf
    by_cases hc : (cursor < hv &&
        height - BLOOM_COUNTER_DEPTH < r.height &&
        !(s.removed.contains r.txid)) = true
    · rw [if_pos hc] at hf
      have hxe := Option.some.inj hf
      subst hxe
      simp only [Bool.and_eq_true, decide_eq_true_eq,
        Bool.not_eq_true'] at hc
      exact ⟨hr, hp, hc.1.1, hc.1.2, hc.2⟩
    · rw [if_neg hc] at hf
      cases hf

theorem scanLoop_cons (tagFn : Nat → Nat → Nat) (d : MemPoolSyncData)
    (mt : Nat) (r : TxRow) (rest : List TxRow) (acc : List Nat) :
    scanLoop tagFn d mt (r :: rest) acc =
      if syncDataContains tagFn d r.txid then scanLoop tagFn d mt rest acc
      else
        if mt ≤ (acc ++ [r.txid]).length then acc ++ [r.txid]
        else scanLoop tagFn d mt rest (acc ++ [r.txid]) := rfl

theorem scanLoop_contained (tagFn : Nat → Nat → Nat) (d : MemPoolSyncData)
    (mt : Nat) : ∀ (l : List TxRow) (acc : List Nat),
    (∀ r ∈ l, syncDataContains tagFn d r.txid = true) →
    scanLoop tagFn d mt l acc = acc := by
  intro l
  induction l with
  | nil => intro acc _; rfl
  | cons r rest ih =>
    intro acc h
    rw [scanLoop_cons, if_pos (h r (List.mem_cons_self _ _))]
    exact ih acc (fun b hb => h b (List.mem_cons_of_mem _ hb))

theorem scanLoop_all_new (tagFn : Nat → Nat → Nat) (d : MemPoolSyncData)
    (mt : Nat) : ∀ (l : List TxRow) (acc : List Nat),
    (∀ r ∈ l, syncDataContains tagFn d r.txid = false) →
    acc.length < max mt 1 →
    scanLoop tagFn d mt l acc =
      acc ++ (l.map (·.txid)).take (max mt 1 - acc.length) := by
  intro l
  induction l with
  | nil =>
    intro acc _ _
    simp [scanLoop]
  | cons r rest ih =>
    intro acc hno hlt
    rw [scanLoop_cons,
      if_neg (by rw [hno r (List.mem_cons_self _ _)]; simp)]
    by_cases hstop : mt ≤ (acc ++ [r.txid]).length
    · rw [if_pos hstop]
      rw [List.length_append, List.length_singleton] at hstop
      have hlen : max mt 1 - acc.length = 0 + 1 := by omega
      rw [List.map_cons, hlen, List.take_succ_cons, List.take_zero]
    · rw [if_neg hstop]
      rw [List.length_append, List.length_singleton] at hstop
      have hlt' : (acc ++ [r.txid]).length < max mt 1 := by
        rw [List.length_append, List.length_singleton]
        omega
      rw [ih (acc ++ [r.txid])
        (fun b hb => hno b (List.mem_cons_of_mem _ hb)) hlt']
      rw [List.append_assoc]
      congr 1
      have hk : max mt 1 - acc.length =
          (max mt 1 - (acc ++ [r.txid]).length) + 1 := by
        rw [List.length_append, List.length_singleton]
        omega
      rw [List.map_cons, hk, List.take_succ_cons]
      rfl

theorem scanLoop_mem (tagFn : Nat → Nat → Nat) (d : MemPoolSyncData)
    (mt : Nat) : ∀ (l : List TxRow) (acc : List Nat) (t : Nat),
    t ∈ scanLoop tagFn d mt l acc →
    t ∈ acc ∨ ∃ r ∈ l, r.txid = t ∧
      syncDataContains tagFn d r.txid = false := by
  intro l
  induction l with
  | nil => intro acc t ht; exact Or.inl ht
  | cons r rest ih =>
    intro acc t ht
    rw [scanLoop_cons] at ht
    by_cases hc : syncDataContains tagFn d r.txid = true
    · rw [if_pos hc] at ht
      rcases ih acc t ht with h | ⟨b, hb, hbt, hbc⟩
      · exact Or.inl h
      · exact Or.inr ⟨b, List.mem_cons_of_mem _ hb, hbt, hbc⟩
    · rw [if_neg hc] at ht
      have hcf : syncDataContains tagFn d r.txid = false := by
        cases hcc : syncDataContains tagFn d r.txid
        · rfl
        · exact absurd hcc hc
      by_cases hstop : mt ≤ (acc ++ [r.txid]).length
      · rw [if_pos hstop] at ht
        rcases List.mem_append.mp ht with h | h
        · exact Or.inl h
        · rcases List.mem_singleton.mp h with rfl
          exact Or.inr ⟨r, List.mem_cons_self _ _, rfl, hcf⟩
      · rw [if_neg hstop] at ht
        rcases ih _ t ht with h | ⟨b, hb, hbt, hbc⟩
        · rcases List.mem_append.mp h with h | h
          · exact Or.inl h
          · rcases List.mem_singleton.mp h with rfl
            exact Or.inr ⟨r, List.mem_cons_self _ _, rfl, hcf⟩
        · exact Or.inr ⟨b, List.mem_cons_of_mem _ hb, hbt, hbc⟩

theorem scanLoop_length (tagFn : Nat → Nat → Nat) (d : MemPoolSyncData)
    (mt : Nat) : ∀ (l : List TxRow) (acc : List Nat),
    acc.length < max mt 1 →
    (scanLoop tagFn d mt l acc).length ≤ max mt 1 := by
  intro l
  induction l with
  | nil => intro acc h; exact Nat.le_of_lt h
  | cons r rest ih =>
    intro acc h
    rw [scanLoop_cons]
    by_cases hc : syncDataContains tagFn d r.txid = true
    · rw [if_pos hc]
      exact ih acc h
    · rw [if_neg hc]
      by_cases hstop : mt ≤ (acc ++ [r.txid]).length
      · rw [if_pos hstop]
        rw [List.length_append, List.length_singleton]
        omega
      · rw [if_neg hstop]
        apply ih
        rw [List.length_append, List.length_singleton] at hstop ⊢
        have := Nat.le_max_left mt 1
        omega

theorem scanLoop_sublist (tagFn : Nat → Nat → Nat) (d : MemPoolSyncData)
    (mt : Nat) : ∀ (l : List TxRow) (acc : List Nat), ∃ w : List Nat,
    scanLoop tagFn d mt l acc = acc ++ w ∧
    w.Sublist (l.map (·.txid)) := by
  intro l
  induction l with
  | nil =>
    intro acc
    exact ⟨[], by simp [scanLoop], List.nil_sublist _⟩
  | cons r rest ih =>
    intro acc
    rw [scanLoop_cons]
    by_cases hc : syncDataContains tagFn d r.txid = true
    · rw [if_pos hc]
      obtain ⟨w, hw, hsub⟩ := ih acc
      exact ⟨w, hw, List.Sublist.cons _ hsub⟩
    · rw [if_neg hc]
      by_cases hstop : mt ≤ (acc ++ [r.txid]).length
      · rw [if_pos hstop]
        exact ⟨[r.txid], rfl, List.Sublist.cons₂ _ (List.nil_sublist _)⟩
      · rw [if_neg hstop]
        obtain ⟨w, hw, hsub⟩ := ih (acc ++ [r.txid])
        exact ⟨r.txid :: w, by rw [hw, List.append_assoc]; rfl,
          List.Sublist.cons₂ _ hsub⟩

/-- C8 (amended): `find_next_missing_transactions` returns at most
`max(max_txs, 1)` txids (the length check runs only after a push, so
`max_txs = 0` still yields one transaction); every returned txid comes
from a non-tombstoned row joined to a pager entry with
`hashed_txid > cursor` and `height > requester_height - DEPTH`, and is
one the digest does not report as present; the result is a
subsequence of the first `max_scan` joined rows in ascending
`hashed_txid` order; a Tags digest holding all current tags yields
nothing when the requester's height equals the mempool's maximum
height (the tag window is anchored at the node's own tip); and an
empty tag list yields exactly the eligible txids in scan order,
truncated to `max(max_txs, 1)`. -/
theorem find_next_missing_spec (tagFn : Nat → Nat → Nat)
    (s : MemPoolState) (d : MemPoolSyncData)
    (height cursor max_txs max_run : Nat) :
    (∀ t ∈ findNextMissingTransactions tagFn s d height cursor max_txs
        max_run,
      syncDataContains tagFn d t = false ∧
      ∃ r ∈ s.mempool, r.txid = t ∧ ∃ hsh, lookupPager s t = some hsh ∧
        cursor < hsh ∧ height - BLOOM_COUNTER_DEPTH < r.height ∧
        s.removed.contains t = false) ∧
    (findNextMissingTransactions tagFn s d height cursor max_txs
      max_run).length ≤ max max_txs 1 ∧
    List.Sublist
      (findNextMissingTransactions tagFn s d height cursor max_txs max_run)
      ((((recentJoinRows s height cursor).take max_run).map (·.1)).map
        (·.txid)) ∧
    (recentJoinRows s height cursor).Pairwise (fun a b => a.2 ≤ b.2) ∧
    (getMaxHeight s.mempool = some height → ∀ seed,
      findNextMissingTransactions tagFn s
        (.txTags seed (getTxtags tagFn s seed)) height cursor max_txs
        max_run = []) ∧
    (∀ seed,
      findNextMissingTransactions tagFn s (.txTags seed []) height cursor
        max_txs max_run =
      ((((recentJoinRows s height cursor).take max_run).map (·.1)).map
        (·.txid)).take (max max_txs 1)) := by
  refine ⟨?_, ?_, ?_, ?_, ?_, ?_⟩
  · intro t ht
    rcases scanLoop_mem tagFn d max_txs _ [] t ht with h | ⟨r, hr, rfl, hcf⟩
    · cases h
    · refine ⟨hcf, ?_⟩
      obtain ⟨x, hx, hx1⟩ := List.mem_map.mp hr
      have hxj : x ∈ recentJoinRows s height cursor :=
        (List.take_sublist _ _).subset hx
      obtain ⟨hm, hlp, hcur, hh, hrm⟩ :=
        mem_recentJoinRows s height cursor x hxj
      subst hx1
      exact ⟨x.1, hm, rfl, x.2, hlp, hcur, hh, hrm⟩
  · exact scanLoop_length tagFn d max_txs _ []
      (Nat.lt_of_lt_of_le Nat.zero_lt_one (Nat.le_max_right _ _))
  · obtain ⟨w, hw, hsub⟩ := scanLoop_sublist tagFn d max_txs
      (((recentJoinRows s height cursor).take max_run).map (·.1)) []
    have hres : findNextMissingTransactions tagFn s d height cursor
        max_txs max_run = w := by
      show scanLoop tagFn d max_txs
        (((recentJoinRows s height cursor).take max_run).map (·.1)) [] = w
      rw [hw, List.nil_append]
    rw [hres]
    exact hsub
  · exact sortHashedAsc_sorted _
  · intro hmaxh seed
    show scanLoop tagFn (.txTags seed (getTxtags tagFn s seed)) max_txs
      (((recentJoinRows s height cursor).take max_run).map (·.1)) [] = []
    apply scanLoop_contained
    intro r hr
    obtain ⟨x, hx, hx1⟩ := List.mem_map.mp hr
    have hxj : x ∈ recentJoinRows s height cursor :=
      (List.take_sublist _ _).subset hx
    obtain ⟨hm, _, _, hh, hrm⟩ := mem_recentJoinRows s height cursor x hxj
    subst hx1
    show (getTxtags tagFn s seed).contains (tagFn seed x.1.txid) = true
    rw [contains_true_iff]
    unfold getTxtags
    apply List.mem_map_of_mem
    unfold getBloomTxids
    simp only [hmaxh]
    apply List.mem_map_of_mem
    rw [List.mem_filter]
    refine ⟨hm, ?_⟩
    simp only [Bool.and_eq_true, decide_eq_true_eq, Bool.not_eq_true']
    exact ⟨⟨hh, getMaxHeight_le s.mempool height hmaxh x.1 hm⟩, hrm⟩
  · intro seed
    show scanLoop tagFn (.txTags seed []) max_txs
      (((recentJoinRows s height cursor).take max_run).map (·.1)) [] = _
    rw [scanLoop_all_new tagFn (.txTags seed []) max_txs _ []
      (fun r _ => rfl)
      (Nat.lt_of_lt_of_le Nat.zero_lt_one (Nat.le_max_right _ _))]
    rw [List.nil_append, List.length_nil, Nat.sub_zero]

/-- A single row: txid 1, fee 1, height 5. -/
def c8row1 : TxRow :=
  { txid := 1, origin_address := 1, origin_nonce := 0, sponsor_address := 1,
    sponsor_nonce := 0, tx_fee := 1, length := 1, consensus_hash := 0,
    block_header_hash := 1, height := 5, accept_time := 0 }

/-- A second row: txid 2, fee 1, height 10. -/
def c8row2 : TxRow :=
  { txid := 2, origin_address := 2, origin_nonce := 0, sponsor_address := 2,
    sponsor_nonce := 0, tx_fee := 1, length := 1, consensus_hash := 0,
    block_header_hash := 1, height := 10, accept_time := 0 }

/-- One live row with a pager entry of hashed txid 5. -/
def c8s : MemPoolState :=
  { mempool := [c8row1], removed := [], randomized := [(1, 5)],
    bloom := [1], seed := 0 }

/-- Two live rows at heights 5 and 10 with pager entries. -/
def c8b : MemPoolState :=
  { mempool := [c8row1, c8row2], removed := [], randomized := [(1, 5), (2, 6)],
    bloom := [1, 2], seed := 0 }

/-- C8 counterexample.  First: with `max_txs = 0` the loop still
returns one transaction, because the batch-size check runs only after
the push.  Second: the current-tags window is anchored at the
mempool's own maximum height (10), so a peer at height 5 supplying all
current tags still receives the row at height 5 — not zero
transactions. -/
theorem find_next_missing_cex :
    findNextMissingTransactions (fun sd t => sd + t) c8s
      (.txTags 0 []) 5 0 0 10 = [1] ∧
    findNextMissingTransactions (fun sd t => sd + t) c8b
      (.txTags 0 (getTxtags (fun sd t => sd + t) c8b 0)) 5 0 10 10 =
      [1] := by
  constructor
  · rfl
  · rfl

end MempoolSpec
